import Mathlib

/-!
Verification of the Tasto backend inventory ledger and cost/analytics engine.

This file gives a shallow embedding of the core services of the repository:

* `InventoryService` (src/unnamed/part_005): `calculateRemainingQuantity`,
  `recordUsage`, `recordSpoilage`, `batchCalculateRemainingQuantities`,
  `batchRecordUsage`, `getAllStock`;
* `RecipeService` (src/src/services/recipe.service.ts): `calculateRecipeCost`
  and the FIFO allocation loop of `completeRecipe`;
* `InventoryAnalyticsService` (src/src/services/inventory-analytics.service.ts):
  `calculateOverallStatistics`, `calculateIngredientAnalytics`,
  `saveDailySnapshot`.

Database tables become lists of rows; SQL aggregate queries become list
folds that mirror the join/group semantics of the original queries
(including join multiplicities); JavaScript numbers become exact rationals,
with a dedicated `JSVal` type for the places where division by zero can
produce Infinity or NaN; `throw` becomes `Except.error`; the JavaScript
`Number.prototype.toFixed(2)` rounding becomes `toFixed2` (round half up at
the second decimal, idealizing the binary-double representation away).
-/

namespace Tasto

/-- One row of `ingredient_stock`: a purchase lot.  Dates are modelled as
integers (days); prices and quantities as exact rationals. -/
structure Lot where
  id : Nat
  userId : Nat
  ingredientId : Nat
  locationId : Nat
  quantity : ℚ
  purchasePrice : ℚ
  purchaseDate : Int
  deriving DecidableEq, Repr

/-- One row of `usage_history`. -/
structure UsageEvent where
  stockId : Nat
  quantityUsed : ℚ
  deriving DecidableEq, Repr

/-- One row of `spoilage_records`. -/
structure SpoilEvent where
  stockId : Nat
  quantity : ℚ
  deriving DecidableEq, Repr

/-- One row of `ingredients` (only the columns the claims need). -/
structure IngredientRow where
  id : Nat
  userId : Nat
  deriving DecidableEq, Repr

/-- JavaScript number values as produced by the arithmetic in the analytics
services: either an exact finite value, an infinity, or NaN.  Finite
arithmetic is idealized to exact rational arithmetic; the special values
track exactly the divisions by zero the code can perform. -/
inductive JSVal where
  | num : ℚ → JSVal
  | inf : JSVal
  | ninf : JSVal
  | nan : JSVal
  deriving DecidableEq, Repr

/-- JavaScript `+` on numbers. -/
def jsAdd : JSVal → JSVal → JSVal
  | JSVal.num a, JSVal.num b => JSVal.num (a + b)
  | JSVal.nan, _ => JSVal.nan
  | _, JSVal.nan => JSVal.nan
  | JSVal.inf, JSVal.ninf => JSVal.nan
  | JSVal.ninf, JSVal.inf => JSVal.nan
  | JSVal.inf, _ => JSVal.inf
  | _, JSVal.inf => JSVal.inf
  | JSVal.ninf, _ => JSVal.ninf
  | _, JSVal.ninf => JSVal.ninf

/-- JavaScript `*` on numbers (`0 * Infinity = NaN`). -/
def jsMul : JSVal → JSVal → JSVal
  | JSVal.num a, JSVal.num b => JSVal.num (a * b)
  | JSVal.nan, _ => JSVal.nan
  | _, JSVal.nan => JSVal.nan
  | JSVal.num a, JSVal.inf =>
      if 0 < a then JSVal.inf else if a < 0 then JSVal.ninf else JSVal.nan
  | JSVal.inf, JSVal.num a =>
      if 0 < a then JSVal.inf else if a < 0 then JSVal.ninf else JSVal.nan
  | JSVal.num a, JSVal.ninf =>
      if 0 < a then JSVal.ninf else if a < 0 then JSVal.inf else JSVal.nan
  | JSVal.ninf, JSVal.num a =>
      if 0 < a then JSVal.ninf else if a < 0 then JSVal.inf else JSVal.nan
  | JSVal.inf, JSVal.inf => JSVal.inf
  | JSVal.inf, JSVal.ninf => JSVal.ninf
  | JSVal.ninf, JSVal.inf => JSVal.ninf
  | JSVal.ninf, JSVal.ninf => JSVal.inf

/-- JavaScript division of two finite numbers: `p / 0` is an infinity (or NaN
when `p = 0`), otherwise the exact quotient. -/
def jsDiv (p q : ℚ) : JSVal :=
  if q ≠ 0 then JSVal.num (p / q)
  else if 0 < p then JSVal.inf
  else if p < 0 then JSVal.ninf
  else JSVal.nan

/-- Whether a JavaScript value is an ordinary finite number. -/
def JSVal.isNum : JSVal → Bool
  | JSVal.num _ => true
  | _ => false

/-- The overall-statistics aggregate of `calculateOverallStatistics`
(restricted to the value fields the claims are about). -/
structure OverallStats where
  totalValue : JSVal
  remainingValue : JSVal
  totalPurchases : Nat
  deriving DecidableEq, Repr

/-- One row of `daily_inventory_snapshots`, keyed by (userId, snapshotDate)
as in the schema's `userSnapshotDateUnique` constraint. -/
structure SnapshotRow where
  userId : Nat
  snapshotDate : Nat
  stats : OverallStats
  deriving DecidableEq, Repr

/-- The database state the services operate over. -/
structure Ledger where
  lots : List Lot
  usage : List UsageEvent
  spoilage : List SpoilEvent
  ingredients : List IngredientRow
  snapshots : List SnapshotRow
  deriving DecidableEq

/-- Primary-key well-formedness: `ingredient_stock.id` is a primary key, so
lot ids are pairwise distinct. -/
def Ledger.WF (db : Ledger) : Prop :=
  (db.lots.map (fun l => l.id)).Nodup

instance (db : Ledger) : Decidable db.WF := by
  unfold Ledger.WF; infer_instance

/-- `Number.prototype.toFixed(2)` followed by `parseFloat`: round half up at
the second decimal place (ECMA-262 picks the larger candidate on ties). -/
def toFixed2 (q : ℚ) : ℚ := (round (q * 100) : ℤ) / 100

/-- `SELECT COALESCE(SUM(quantityUsed), 0) FROM usage_history WHERE
ingredientStockId = sid`: the plain usage total recorded against one lot. -/
def usageSumRaw (db : Ledger) (sid : Nat) : ℚ :=
  ((db.usage.filter (fun u => u.stockId == sid)).map
    (fun u => u.quantityUsed)).sum

/-- Plain spoilage total recorded against one lot. -/
def spoilSumRaw (db : Ledger) (sid : Nat) : ℚ :=
  ((db.spoilage.filter (fun s => s.stockId == sid)).map
    (fun s => s.quantity)).sum

/-- The stock rows matching `id = sid AND userId = uid` (at most one in a
well-formed database, since `id` is the primary key). -/
def matchingLots (db : Ledger) (sid uid : Nat) : List Lot :=
  db.lots.filter (fun l => l.id == sid && l.userId == uid)

/-- `SELECT ... FROM ingredient_stock WHERE id = sid AND userId = uid
LIMIT 1`. -/
def findLot (db : Ledger) (sid uid : Nat) : Option Lot :=
  (matchingLots db sid uid).head?

/-- The usage-sum query of `calculateRemainingQuantity`: usage joined with
`ingredient_stock` on the stock id, filtered by `userId`.  Every usage row
pairs with every matching stock row, so the SQL sum carries the join
multiplicity `(matchingLots db sid uid).length`. -/
def usageSumUser (db : Ledger) (sid uid : Nat) : ℚ :=
  ((matchingLots db sid uid).length : ℚ) * usageSumRaw db sid

/-- The spoilage-sum query of `calculateRemainingQuantity`, with the same
join multiplicity. -/
def spoilSumUser (db : Ledger) (sid uid : Nat) : ℚ :=
  ((matchingLots db sid uid).length : ℚ) * spoilSumRaw db sid

/-- `InventoryService.calculateRemainingQuantity` (src/unnamed/part_005
lines 56-113): `"0"` when the lot is missing for this user, otherwise
`max(0, quantity - totalUsed - totalSpoiled).toFixed(2)`. -/
def calculateRemainingQuantity (db : Ledger) (sid uid : Nat) : ℚ :=
  match findLot db sid uid with
  | none => 0
  | some lot =>
      toFixed2 (max 0 (lot.quantity - usageSumUser db sid uid -
        spoilSumUser db sid uid))

/-- `InventoryService.recordUsage` (src/unnamed/part_005 lines 222-295),
restricted to its ledger effect: verify the stock row exists for the user,
check the recomputed remaining quantity, then insert the usage row. -/
def recordUsage (db : Ledger) (sid : Nat) (quantityUsed : ℚ) (uid : Nat) :
    Except String Ledger :=
  match findLot db sid uid with
  | none => Except.error "Ingredient stock not found"
  | some _ =>
      if calculateRemainingQuantity db sid uid < quantityUsed then
        Except.error "Insufficient stock available"
      else
        Except.ok { db with usage := db.usage ++ [⟨sid, quantityUsed⟩] }

/-- `InventoryService.recordSpoilage` (src/unnamed/part_005 lines 298-371),
restricted to its ledger effect. -/
def recordSpoilage (db : Ledger) (sid : Nat) (quantity : ℚ) (uid : Nat) :
    Except String Ledger :=
  match findLot db sid uid with
  | none => Except.error "Ingredient stock not found"
  | some _ =>
      if calculateRemainingQuantity db sid uid < quantity then
        Except.error "Insufficient stock available"
      else
        Except.ok { db with spoilage := db.spoilage ++ [⟨sid, quantity⟩] }

/-- The combined usage+spoilage total recorded against one lot: the quantity
the ledger invariant bounds by `lot.quantity`. -/
def ledgerConsumed (db : Ledger) (sid : Nat) : ℚ :=
  usageSumRaw db sid + spoilSumRaw db sid

/-- A usage record queued by `completeRecipe` for `batchRecordUsage`. -/
structure UsageOp where
  stockId : Nat
  quantityUsed : ℚ
  deriving DecidableEq, Repr

/-- `InventoryService.batchRecordUsage` (src/unnamed/part_005 lines
913-989): recompute the remaining quantity of every referenced lot with one
batch map, validate every item against that map (`remaining <
quantityUsed` throws, map misses default to `"0"`), and only then insert
all records.  `calculateRemainingQuantity` computes exactly the per-lot
value of `batchCalculateRemainingQuantities` (same grouped join sums, same
`max(0, ...)` and `toFixed(2)`), and returns `0` on a map miss. -/
def batchRecordUsage (db : Ledger) (ops : List UsageOp) (uid : Nat) :
    Except String Ledger :=
  if ops.isEmpty then Except.ok db
  else if ops.all
      (fun o => o.quantityUsed ≤ calculateRemainingQuantity db o.stockId uid)
  then
    Except.ok { db with
      usage := db.usage ++ ops.map (fun o => ⟨o.stockId, o.quantityUsed⟩) }
  else Except.error "Insufficient stock available"

/-- What `completeRecipe` sees of one candidate lot after
`batchGetIngredientStock`: the lot id, its purchase date, and
`parseFloat(stock.remainingQuantity)` from the batch remaining map. -/
structure StockView where
  id : Nat
  purchaseDate : Int
  remaining : ℚ
  deriving DecidableEq, Repr

/-- Result of the per-ingredient FIFO walk in `completeRecipe`. -/
structure FifoResult where
  ops : List (Nat × ℚ)
  stillNeeded : ℚ
  totalAvailable : ℚ
  deriving DecidableEq, Repr

/-- The FIFO distribution loop of `RecipeService.completeRecipe`
(src/src/services/recipe.service.ts lines 783-805): walk the sorted lots,
break once nothing is needed, skip lots with `available <= 0`, take
`min(remainingQuantity, available)` from each other lot, and accumulate
`totalAvailable` over the visited positive lots. -/
def fifoLoop (need : ℚ) : List StockView → FifoResult
  | [] => ⟨[], need, 0⟩
  | e :: rest =>
      if need ≤ 0 then ⟨[], need, 0⟩
      else if e.remaining ≤ 0 then fifoLoop need rest
      else
        let take := min need e.remaining
        let r := fifoLoop (need - take) rest
        ⟨(e.id, take) :: r.ops, r.stillNeeded, e.remaining + r.totalAvailable⟩

/-- Stable insertion of a lot view into a list already sorted ascending by
purchase date: the inserted element goes before later elements with an
equal date, matching the stable JavaScript `sort` by date difference. -/
def insertByDate (e : StockView) : List StockView → List StockView
  | [] => [e]
  | x :: xs =>
      if e.purchaseDate ≤ x.purchaseDate then e :: x :: xs
      else x :: insertByDate e xs

/-- `[...stockEntries].sort((a, b) => dateA - dateB)`: stable ascending sort
by purchase date (src/src/services/recipe.service.ts lines 777-781). -/
def sortByDate : List StockView → List StockView
  | [] => []
  | x :: xs => insertByDate x (sortByDate xs)

/-- The candidate lots `completeRecipe` receives for one ingredient:
the user's stock rows of that ingredient, each paired with its remaining
quantity from the batch map. -/
def stockViewsFor (db : Ledger) (uid ingId : Nat) : List StockView :=
  (db.lots.filter (fun l => l.ingredientId == ingId && l.userId == uid)).map
    (fun l => ⟨l.id, l.purchaseDate, calculateRemainingQuantity db l.id uid⟩)

/-- One entry of the structured shortage report of `completeRecipe`. -/
structure Shortage where
  ingredientId : Nat
  requiredQuantity : ℚ
  availableQuantity : ℚ
  shortageQuantity : ℚ
  deriving DecidableEq, Repr

/-- The usage plan and shortage entry `completeRecipe` computes for one
ingredient. -/
structure IngPlan where
  ingredientId : Nat
  required : ℚ
  ops : List UsageOp
  shortage : Option Shortage
  deriving DecidableEq, Repr

/-- The per-ingredient planning step of `completeRecipe`
(src/src/services/recipe.service.ts lines 746-818): zero candidate lots is
a 100% shortage; otherwise sort by purchase date and run the FIFO loop,
reporting a shortage when the loop leaves `remainingQuantity > 0`. -/
def planIngredient (db : Ledger) (uid ingId : Nat) (required : ℚ) : IngPlan :=
  let entries := stockViewsFor db uid ingId
  if entries.isEmpty then
    ⟨ingId, required, [], some ⟨ingId, required, 0, required⟩⟩
  else
    let r := fifoLoop required (sortByDate entries)
    ⟨ingId, required, r.ops.map (fun p => ⟨p.1, p.2⟩),
      if 0 < r.stillNeeded then
        some ⟨ingId, required, r.totalAvailable, r.stillNeeded⟩
      else none⟩

/-- All per-ingredient plans of one `completeRecipe` call; entries of the
quantities map with `requiredQuantity <= 0` are skipped (`continue`). -/
def plansOf (db : Ledger) (uid : Nat) (reqs : List (Nat × ℚ)) :
    List IngPlan :=
  (reqs.filter (fun p => 0 < p.2)).map (fun p => planIngredient db uid p.1 p.2)

/-- The collected shortage report of one `completeRecipe` call. -/
def shortagesOf (db : Ledger) (uid : Nat) (reqs : List (Nat × ℚ)) :
    List Shortage :=
  (plansOf db uid reqs).filterMap (fun p => p.shortage)

/-- The collected usage operations of one `completeRecipe` call. -/
def usageOpsOf (db : Ledger) (uid : Nat) (reqs : List (Nat × ℚ)) :
    List UsageOp :=
  ((plansOf db uid reqs).map (fun p => p.ops)).flatten

/-- The result of `completeRecipe`: the success flag, the shortage report
(`[]` stands for the `undefined` shortage field), and the resulting
database state. -/
structure CompleteResult where
  success : Bool
  shortages : List Shortage
  db : Ledger
  deriving DecidableEq

/-- `RecipeService.completeRecipe` (src/src/services/recipe.service.ts
lines 620-837), over a resolved quantities map `reqs` (recipe quantities or
`actualQuantities` overrides): plan FIFO usage per ingredient; if any
shortage exists and `allowPartialStock` is not set, return
`success: false` with the report and write nothing; otherwise write all
planned usage through `batchRecordUsage` and return `success: true` with
the report. -/
def completeRecipe (db : Ledger) (uid : Nat) (reqs : List (Nat × ℚ))
    (allowPartialStock : Bool) : Except String CompleteResult :=
  let shortages := shortagesOf db uid reqs
  let ops := usageOpsOf db uid reqs
  if !shortages.isEmpty && !allowPartialStock then
    Except.ok ⟨false, shortages, db⟩
  else if ops.isEmpty then Except.ok ⟨true, shortages, db⟩
  else
    (batchRecordUsage db ops uid).map (fun db2 => ⟨true, shortages, db2⟩)

/-- Total positive remaining quantity over an ingredient's candidate lots:
what the FIFO walk can deliver in all. -/
def availableOf (db : Ledger) (uid ingId : Nat) : ℚ :=
  ((stockViewsFor db uid ingId).map (fun e => max 0 e.remaining)).sum

/-- The row set of `usage LEFT JOIN spoilage` restricted to one lot, as
produced by the double left join in the `getAllStock` query
(src/unnamed/part_005 lines 384-407): the usage rows and spoilage rows of
the lot are cross-joined, an empty side contributing a single null. -/
def joinRowsFor (db : Ledger) (sid : Nat) : List (Option ℚ × Option ℚ) :=
  let us := (db.usage.filter (fun u => u.stockId == sid)).map
    (fun u => u.quantityUsed)
  let sp := (db.spoilage.filter (fun s => s.stockId == sid)).map
    (fun s => s.quantity)
  let usOpt := if us.isEmpty then [none] else us.map some
  let spOpt := if sp.isEmpty then [none] else sp.map some
  usOpt.flatMap (fun u => spOpt.map (fun s => (u, s)))

/-- `COALESCE(SUM(usage_history.quantityUsed), 0)` grouped per lot in the
`getAllStock` query: the sum ranges over the cross-joined row set, so each
usage quantity is counted once per spoilage row of the same lot. -/
def sqlTotalUsed (db : Ledger) (sid : Nat) : ℚ :=
  ((joinRowsFor db sid).map (fun r => r.1.getD 0)).sum

/-- `COALESCE(SUM(spoilage_records.quantity), 0)` grouped per lot in the
`getAllStock` query, with the symmetric fan-out over usage rows. -/
def sqlTotalSpoiled (db : Ledger) (sid : Nat) : ℚ :=
  ((joinRowsFor db sid).map (fun r => r.2.getD 0)).sum

/-- The per-lot remaining quantity `getAllStock` computes in JavaScript from
the grouped SQL sums (src/unnamed/part_005 lines 422-427). -/
def getAllStockLotRemaining (db : Ledger) (l : Lot) : ℚ :=
  max 0 (l.quantity - sqlTotalUsed db l.id - sqlTotalSpoiled db l.id)

/-- The user's lots of one ingredient, in table order. -/
def lotsOfIngredient (db : Ledger) (uid ingId : Nat) : List Lot :=
  db.lots.filter (fun l => l.ingredientId == ingId && l.userId == uid)

/-- The per-(ingredient, location) remaining sum `getAllStock` accumulates:
lots whose computed remaining is `<= 0` are skipped before grouping. -/
def getAllStockLocRemaining (db : Ledger) (uid ingId locId : Nat) : ℚ :=
  (((lotsOfIngredient db uid ingId).filter
      (fun l => l.locationId == locId)).map
    (fun l => getAllStockLotRemaining db l)).sum

/-- One entry of the `getAllStock` summary (ingredient id, `totalStock`,
and the per-location breakdown; display names are omitted). -/
structure StockSummary where
  ingredientId : Nat
  totalStock : ℚ
  locations : List (Nat × ℚ)
  deriving DecidableEq, Repr

/-- `InventoryService.getAllStock` (src/unnamed/part_005 lines 374-483):
one grouped double-left-join query computes per-lot usage/spoilage sums;
remaining quantities are grouped by ingredient and location (skipping
non-positive lots), and every ingredient of the user gets a summary, those
without stock reporting `"0.00"` with an empty location list.  Location
entries keep positive location sums only, each `toFixed(2)`; `totalStock`
is the `toFixed(2)` of the sum of the included location sums. -/
def getAllStock (db : Ledger) (uid : Nat) : List StockSummary :=
  (db.ingredients.filter (fun i => i.userId == uid)).map (fun ing =>
    let locIds := ((lotsOfIngredient db uid ing.id).filter
      (fun l => 0 < getAllStockLotRemaining db l)).map
        (fun l => l.locationId) |>.dedup
    let included := locIds.filter
      (fun locId => 0 < getAllStockLocRemaining db uid ing.id locId)
    ⟨ing.id,
      toFixed2 ((included.map
        (fun locId => getAllStockLocRemaining db uid ing.id locId)).sum),
      included.map (fun locId =>
        (locId, toFixed2 (getAllStockLocRemaining db uid ing.id locId)))⟩)

/-- The reference aggregate the specification defines: for an ingredient,
the sum over its lots of the per-lot remaining quantity as computed by
`calculateRemainingQuantity`. -/
def referenceIngredientStock (db : Ledger) (uid ingId : Nat) : ℚ :=
  ((lotsOfIngredient db uid ingId).map
    (fun l => calculateRemainingQuantity db l.id uid)).sum

/-- The user's lots, in table order. -/
def lotsOf (db : Ledger) (uid : Nat) : List Lot :=
  db.lots.filter (fun l => l.userId == uid)

/-- One loop iteration of `calculateOverallStatistics`
(src/src/services/inventory-analytics.service.ts lines 143-207), restricted
to the value aggregates: `pricePerUnit = purchasePrice / quantity` is
computed without any zero guard, then multiplied into the totals. -/
def overallStatsStep (db : Ledger) (acc : OverallStats) (l : Lot) :
    OverallStats :=
  let pricePerUnit := jsDiv l.purchasePrice l.quantity
  let used := usageSumRaw db l.id
  let spoiled := spoilSumRaw db l.id
  let remainingQty := max 0 (l.quantity - used - spoiled)
  let validRemaining := min remainingQty l.quantity
  { totalValue := jsAdd acc.totalValue (jsMul (JSVal.num l.quantity)
      pricePerUnit),
    remainingValue := jsAdd acc.remainingValue (jsMul
      (JSVal.num validRemaining) pricePerUnit),
    totalPurchases := acc.totalPurchases + 1 }

/-- `InventoryAnalyticsService.calculateOverallStatistics`
(src/src/services/inventory-analytics.service.ts lines 19-254), value
aggregates only: a single pass over the user's lots with batch-grouped
usage/spoilage sums. -/
def calculateOverallStatistics (db : Ledger) (uid : Nat) : OverallStats :=
  (lotsOf db uid).foldl (overallStatsStep db) ⟨JSVal.num 0, JSVal.num 0, 0⟩

/-- Value aggregates of `calculateIngredientAnalytics`. -/
structure IngredientAnalytics where
  totalValue : JSVal
  remainingValue : JSVal
  averagePricePerUnit : JSVal
  totalPurchases : Nat
  deriving DecidableEq, Repr

/-- Division of a JavaScript value by a finite value (used for
`totalPricePerUnit / purchaseCount`). -/
def jsDivVal (a : JSVal) (b : ℚ) : JSVal :=
  match a with
  | JSVal.num x => jsDiv x b
  | JSVal.nan => JSVal.nan
  | JSVal.inf =>
      if 0 < b then JSVal.inf else if b < 0 then JSVal.ninf else JSVal.nan
  | JSVal.ninf =>
      if 0 < b then JSVal.ninf else if b < 0 then JSVal.inf else JSVal.nan

/-- The running aggregates of the `calculateIngredientAnalytics` loop. -/
structure IngAnalyticsAcc where
  totalValue : JSVal
  remainingValue : JSVal
  totalPricePerUnit : JSVal
  deriving DecidableEq, Repr

/-- One loop iteration of `calculateIngredientAnalytics`
(src/src/services/inventory-analytics.service.ts lines 367-400), value
aggregates only: again `pricePerUnit = purchasePrice / quantity` with no
zero guard. -/
def ingAnalyticsStep (db : Ledger) (acc : IngAnalyticsAcc) (l : Lot) :
    IngAnalyticsAcc :=
  let pricePerUnit := jsDiv l.purchasePrice l.quantity
  let used := usageSumRaw db l.id
  let spoiled := spoilSumRaw db l.id
  let remainingQty := max 0 (l.quantity - used - spoiled)
  let validRemaining := min remainingQty l.quantity
  { totalValue := jsAdd acc.totalValue (jsMul (JSVal.num l.quantity)
      pricePerUnit),
    remainingValue := jsAdd acc.remainingValue (jsMul
      (JSVal.num validRemaining) pricePerUnit),
    totalPricePerUnit := jsAdd acc.totalPricePerUnit pricePerUnit }

/-- `InventoryAnalyticsService.calculateIngredientAnalytics`
(src/src/services/inventory-analytics.service.ts lines 259-500), value
aggregates only: `Ingredient not found` when the ingredient does not belong
to the user, all-zero aggregates when it has no lots, otherwise a fold over
its lots with `averagePricePerUnit = totalPricePerUnit / purchaseCount`. -/
def calculateIngredientAnalytics (db : Ledger) (ingId uid : Nat) :
    Except String IngredientAnalytics :=
  if (db.ingredients.filter
      (fun i => i.id == ingId && i.userId == uid)).isEmpty then
    Except.error "Ingredient not found"
  else
    let stocks := lotsOfIngredient db uid ingId
    if stocks.isEmpty then
      Except.ok ⟨JSVal.num 0, JSVal.num 0, JSVal.num 0, 0⟩
    else
      let acc := stocks.foldl (ingAnalyticsStep db)
        ⟨JSVal.num 0, JSVal.num 0, JSVal.num 0⟩
      Except.ok ⟨acc.totalValue, acc.remainingValue,
        jsDivVal acc.totalPricePerUnit (stocks.length : ℚ), stocks.length⟩

/-- One (ingredient, quantity) line of a recipe. -/
structure RecipeIngredient where
  ingredientId : Nat
  quantity : ℚ
  deriving DecidableEq, Repr

/-- A recipe as `calculateRecipeCost` reads it. -/
structure Recipe where
  serves : ℚ
  ingredients : List RecipeIngredient
  deriving DecidableEq, Repr

/-- `ORDER BY purchaseDate DESC LIMIT 1` over the user's lots of one
ingredient: a lot with maximal purchase date (the first such in table
order). -/
def latestLotFor (db : Ledger) (ingId uid : Nat) : Option Lot :=
  (lotsOfIngredient db uid ingId).foldl
    (fun acc l =>
      match acc with
      | none => some l
      | some b => if b.purchaseDate < l.purchaseDate then some l else some b)
    none

/-- The unit price `calculateRecipeCost` derives from the most recent lot
(src/src/services/recipe.service.ts lines 590-595): guarded, so a missing
or non-positive-quantity lot yields `0` instead of a division by zero. -/
def unitPriceOf (db : Ledger) (ingId uid : Nat) : ℚ :=
  match latestLotFor db ingId uid with
  | some l => if 0 < l.quantity then l.purchasePrice / l.quantity else 0
  | none => 0

/-- One line of the cost breakdown of `calculateRecipeCost`. -/
structure BreakdownItem where
  ingredientId : Nat
  quantity : ℚ
  unitPrice : ℚ
  subtotal : ℚ
  deriving DecidableEq, Repr

/-- The result record of `calculateRecipeCost`. -/
structure RecipeCost where
  totalCost : ℚ
  breakdown : List BreakdownItem
  serves : ℚ
  costPerServing : ℚ
  deriving DecidableEq, Repr

/-- `RecipeService.calculateRecipeCost` (src/src/services/recipe.service.ts
lines 552-617): `servings = desiredServings || baseServes` (`none` models
an absent argument, and `0` is falsy), `multiplier = servings / baseServes`,
per-ingredient `subtotal = baseQuantity * multiplier * unitPrice`, and
`costPerServing = totalCost / servings`. -/
def calculateRecipeCost (db : Ledger) (recipe : Recipe) (uid : Nat)
    (desiredServings : Option ℚ) : RecipeCost :=
  let baseServes := recipe.serves
  let servings :=
    match desiredServings with
    | some d => if d = 0 then baseServes else d
    | none => baseServes
  let multiplier := servings / baseServes
  let breakdown := recipe.ingredients.map (fun ri =>
    let adjustedQuantity := ri.quantity * multiplier
    let up := unitPriceOf db ri.ingredientId uid
    ⟨ri.ingredientId, adjustedQuantity, up, adjustedQuantity * up⟩)
  let totalCost := (breakdown.map (fun b => b.subtotal)).sum
  ⟨totalCost, breakdown, servings, totalCost / servings⟩

/-- Whether a snapshot row matches the (tenant, date) conflict target of
the `userSnapshotDateUnique` constraint. -/
def snapKeyMatches (r : SnapshotRow) (uid date : Nat) : Bool :=
  r.userId == uid && r.snapshotDate == date

/-- `INSERT ... ON CONFLICT (userId, snapshotDate) DO UPDATE`: update the
existing row for the key when present, insert a fresh row otherwise. -/
def upsertSnapshot (rows : List SnapshotRow) (uid date : Nat)
    (s : OverallStats) : List SnapshotRow :=
  if rows.any (fun r => snapKeyMatches r uid date) then
    rows.map (fun r =>
      if snapKeyMatches r uid date then { r with stats := s } else r)
  else rows ++ [⟨uid, date, s⟩]

/-- `InventoryAnalyticsService.saveDailySnapshot`
(src/src/services/inventory-analytics.service.ts lines 708-744): recompute
the overall statistics and upsert them under (tenant, today).  The wall
clock is modelled by the explicit `today` argument. -/
def saveDailySnapshot (db : Ledger) (uid today : Nat) : Ledger :=
  { db with snapshots :=
      upsertSnapshot db.snapshots uid today (calculateOverallStatistics db uid) }

/-- Number of snapshot rows stored for one (tenant, date) key. -/
def snapshotCount (db : Ledger) (uid date : Nat) : Nat :=
  (db.snapshots.filter (fun r => snapKeyMatches r uid date)).length

/-- Example lot: quantity 10 with usage 7 and spoilage 5 recorded. -/
def exLotC1 : Lot := ⟨1, 1, 1, 1, 10, 10, 0⟩

/-- Example ledger for the remaining-quantity floor: usage 7 plus spoilage 5
against a quantity-10 lot. -/
def exLedgerC1 : Ledger := ⟨[exLotC1], [⟨1, 7⟩], [⟨1, 5⟩], [⟨1, 1⟩], []⟩

/-- Example ledger whose only lot belongs to tenant 2. -/
def exLedgerForeign : Ledger := ⟨[⟨1, 2, 1, 1, 10, 10, 0⟩], [], [], [], []⟩

/-- Example ledger where the true remaining quantity is 1/128 = 0.0078125,
which `toFixed(2)` rounds up to 0.01. -/
def exLedgerRound : Ledger :=
  ⟨[⟨1, 1, 1, 1, 10, 10, 0⟩], [⟨1, 1279/128⟩], [], [⟨1, 1⟩], []⟩

/-- `exLedgerRound` after the usage insert of 0.01 is accepted. -/
def exLedgerRoundAfter : Ledger :=
  { exLedgerRound with usage := exLedgerRound.usage ++ [⟨1, 1/100⟩] }

/-- Example ledger with one usage event and two spoilage events against the
same quantity-10 lot of ingredient 7 at location 3: the `getAllStock` join
fans the usage sum out over the two spoilage rows. -/
def exLedgerFanout : Ledger :=
  ⟨[⟨1, 1, 7, 3, 10, 10, 0⟩], [⟨1, 2⟩], [⟨1, 1⟩, ⟨1, 1⟩], [⟨7, 1⟩], []⟩

/-- Example ledger with a zero-quantity lot priced at 5. -/
def exLedgerZeroQty : Ledger := ⟨[⟨1, 1, 1, 1, 0, 5, 0⟩], [], [], [⟨1, 1⟩], []⟩

/-- Example ledger with one positive lot: quantity 4 bought for 20, so the
derived unit price is 5. -/
def exLedgerPos : Ledger := ⟨[⟨1, 1, 1, 1, 4, 20, 0⟩], [], [], [⟨1, 1⟩], []⟩

/-- Example recipe: serves 4, one ingredient line of 4 units of
ingredient 1 (base cost 20 against `exLedgerPos`). -/
def exRecipe : Recipe := ⟨4, [⟨1, 4⟩]⟩

/-- Example FIFO candidates: an older lot with remaining 5 and a newer lot
with remaining 2 (total available 7). -/
def exEntriesFifo : List StockView := [⟨1, 0, 5⟩, ⟨2, 1, 2⟩]

/-- Example two-ingredient ledger: ingredient 1 has 10 in stock (fully
satisfiable), ingredient 2 only 1. -/
def exLedgerAB : Ledger :=
  ⟨[⟨1, 1, 1, 1, 10, 10, 0⟩, ⟨2, 1, 2, 1, 1, 10, 0⟩], [], [],
    [⟨1, 1⟩, ⟨2, 1⟩], []⟩

/-- Example recipe-completion quantities: 5 of ingredient 1 and 3 of
ingredient 2 (ingredient 2 is short by 2 against `exLedgerAB`). -/
def exReqsAB : List (Nat × ℚ) := [(1, 5), (2, 3)]

/-- `exLedgerAB` after the partial-stock completion writes 5 against lot 1
and the available 1 against lot 2. -/
def exLedgerABAfter : Ledger :=
  { exLedgerAB with usage := [⟨1, 5⟩, ⟨2, 1⟩] }

theorem toFixed2_nonneg {q : ℚ} (h : 0 ≤ q) : 0 ≤ toFixed2 q := by
  unfold toFixed2
  have h1 : (0 : ℤ) ≤ round (q * 100) := by
    rw [round_eq]
    apply Int.floor_nonneg.mpr
    nlinarith
  have h2 : (0 : ℚ) ≤ (round (q * 100) : ℤ) := by exact_mod_cast h1
  positivity

theorem toFixed2_le (q : ℚ) : toFixed2 q ≤ q + 1 / 200 := by
  unfold toFixed2
  have h1 : ((round (q * 100) : ℤ) : ℚ) ≤ q * 100 + 1 / 2 := by
    rw [round_eq]
    exact Int.floor_le (q * 100 + 1 / 2)
  linarith

theorem toFixed2_zero : toFixed2 0 = 0 := by
  unfold toFixed2
  norm_num

theorem filter_pk_length_le_one (sid uid : Nat) (l : List Lot)
    (h : (l.map (fun x => x.id)).Nodup) :
    (l.filter (fun x => x.id == sid && x.userId == uid)).length ≤ 1 := by
  induction l with
  | nil => simp
  | cons a t ih =>
      rw [List.map_cons, List.nodup_cons] at h
      obtain ⟨ha, ht⟩ := h
      by_cases hc : (a.id == sid && a.userId == uid) = true
      · rw [List.filter_cons, if_pos hc]
        have hempty : t.filter (fun x => x.id == sid && x.userId == uid) = [] := by
          rw [List.filter_eq_nil_iff]
          intro x hx hpx
          rw [Bool.and_eq_true, beq_iff_eq, beq_iff_eq] at hc hpx
          apply ha
          rw [hc.1, ← hpx.1]
          exact List.mem_map_of_mem (fun y => y.id) hx
        rw [hempty]
        simp
      · rw [List.filter_cons, if_neg hc]
        exact ih ht

theorem matchingLots_length_eq_one (db : Ledger) (sid uid : Nat) (lot : Lot)
    (hwf : db.WF) (hfind : findLot db sid uid = some lot) :
    (matchingLots db sid uid).length = 1 := by
  have hle : (matchingLots db sid uid).length ≤ 1 :=
    filter_pk_length_le_one sid uid db.lots hwf
  have hne : matchingLots db sid uid ≠ [] := by
    intro hnil
    rw [findLot, hnil] at hfind
    simp at hfind
  have hge : 1 ≤ (matchingLots db sid uid).length :=
    List.length_pos.mpr hne
  omega

theorem usageSumUser_eq_raw (db : Ledger) (sid uid : Nat) (lot : Lot)
    (hwf : db.WF) (hfind : findLot db sid uid = some lot) :
    usageSumUser db sid uid = usageSumRaw db sid := by
  unfold usageSumUser
  rw [matchingLots_length_eq_one db sid uid lot hwf hfind]
  norm_num

theorem spoilSumUser_eq_raw (db : Ledger) (sid uid : Nat) (lot : Lot)
    (hwf : db.WF) (hfind : findLot db sid uid = some lot) :
    spoilSumUser db sid uid = spoilSumRaw db sid := by
  unfold spoilSumUser
  rw [matchingLots_length_eq_one db sid uid lot hwf hfind]
  norm_num

theorem calculateRemainingQuantity_eq (db : Ledger) (sid uid : Nat)
    (lot : Lot) (hwf : db.WF) (hfind : findLot db sid uid = some lot) :
    calculateRemainingQuantity db sid uid =
      toFixed2 (max 0 (lot.quantity - usageSumRaw db sid - spoilSumRaw db sid)) := by
  unfold calculateRemainingQuantity
  rw [hfind, usageSumUser_eq_raw db sid uid lot hwf hfind,
    spoilSumUser_eq_raw db sid uid lot hwf hfind]

theorem calculateRemainingQuantity_nonneg (db : Ledger) (sid uid : Nat) :
    0 ≤ calculateRemainingQuantity db sid uid := by
  unfold calculateRemainingQuantity
  cases hfind : findLot db sid uid with
  | none => exact le_refl 0
  | some lot => exact toFixed2_nonneg (le_max_left 0 _)

/-- C1: for every purchase lot, `calculateRemainingQuantity` returns
`max(0, lot.quantity - Σusage - Σspoilage)` rounded to 2 decimal places,
and the result is never negative even when the usage and spoilage sums
exceed the lot's quantity. -/
theorem remaining_quantity_formula (db : Ledger) (sid uid : Nat) (lot : Lot)
    (hwf : db.WF) (hfind : findLot db sid uid = some lot) :
    calculateRemainingQuantity db sid uid =
      toFixed2 (max 0 (lot.quantity - usageSumRaw db sid - spoilSumRaw db sid)) ∧
    0 ≤ calculateRemainingQuantity db sid uid :=
  ⟨calculateRemainingQuantity_eq db sid uid lot hwf hfind,
    calculateRemainingQuantity_nonneg db sid uid⟩

/-- Witness for C1 at the spec's own numbers: quantity 10, usage 7,
spoilage 5 gives remaining 0, not -2. -/
theorem remaining_quantity_formula_witness :
    (exLedgerC1.WF ∧ findLot exLedgerC1 1 1 = some exLotC1 ∧
      calculateRemainingQuantity exLedgerC1 1 1 = 0) ∧
    (calculateRemainingQuantity exLedgerC1 1 1 =
      toFixed2 (max 0 (exLotC1.quantity - usageSumRaw exLedgerC1 1 -
        spoilSumRaw exLedgerC1 1)) ∧
      0 ≤ calculateRemainingQuantity exLedgerC1 1 1) := by
  constructor
  · refine ⟨by decide, ?_, ?_⟩
    · norm_num [findLot, matchingLots, exLedgerC1, exLotC1]
    · norm_num [calculateRemainingQuantity, findLot, matchingLots, exLedgerC1,
        exLotC1, usageSumUser, spoilSumUser, usageSumRaw, spoilSumRaw,
        toFixed2, round_eq]
  · exact remaining_quantity_formula exLedgerC1 1 1 exLotC1 (by decide)
      (by norm_num [findLot, matchingLots, exLedgerC1, exLotC1])

/-- C10: a stock id that does not exist for the supplied tenant — missing
entirely or belonging to a different tenant — makes
`calculateRemainingQuantity` return 0 instead of a not-found error; the
function is total, so querying remaining quantity never fails. -/
theorem remaining_quantity_foreign_is_zero (db : Ledger) (sid uid : Nat)
    (h : ∀ l ∈ db.lots, ¬(l.id = sid ∧ l.userId = uid)) :
    calculateRemainingQuantity db sid uid = 0 := by
  have hempty : matchingLots db sid uid = [] := by
    unfold matchingLots
    rw [List.filter_eq_nil_iff]
    intro l hl hp
    rw [Bool.and_eq_true, beq_iff_eq, beq_iff_eq] at hp
    exact h l hl hp
  unfold calculateRemainingQuantity findLot
  rw [hempty]
  rfl

theorem sumMax0_nonneg (l : List StockView) :
    0 ≤ (l.map (fun e => max 0 e.remaining)).sum := by
  apply List.sum_nonneg
  intro x hx
  obtain ⟨e, _, rfl⟩ := List.mem_map.mp hx
  exact le_max_left 0 e.remaining

theorem fifoLoop_stillNeeded_nonneg (entries : List StockView) (need : ℚ)
    (h : 0 ≤ need) : 0 ≤ (fifoLoop need entries).stillNeeded := by
  induction entries generalizing need with
  | nil => simpa [fifoLoop] using h
  | cons e rest ih =>
      by_cases h1 : need ≤ 0
      · simpa [fifoLoop, h1] using h
      · by_cases h2 : e.remaining ≤ 0
        · simpa [fifoLoop, h1, h2] using ih need h
        · have htake : 0 ≤ need - min need e.remaining := by
            have := min_le_left need e.remaining
            linarith
          simpa [fifoLoop, h1, h2] using ih (need - min need e.remaining) htake

theorem fifoLoop_alloc_sum (entries : List StockView) (need : ℚ) :
    ((fifoLoop need entries).ops.map (fun p => p.2)).sum =
      need - (fifoLoop need entries).stillNeeded := by
  induction entries generalizing need with
  | nil => simp [fifoLoop]
  | cons e rest ih =>
      by_cases h1 : need ≤ 0
      · simp [fifoLoop, h1]
      · by_cases h2 : e.remaining ≤ 0
        · simp [fifoLoop, h1, h2, ih]
        · simp only [fifoLoop, if_neg h1, if_neg h2, List.map_cons,
            List.sum_cons, ih]
          ring

theorem fifoLoop_stillNeeded_eq (entries : List StockView) (need : ℚ)
    (h : 0 ≤ need) :
    (fifoLoop need entries).stillNeeded =
      max 0 (need - (entries.map (fun e => max 0 e.remaining)).sum) := by
  induction entries generalizing need with
  | nil =>
      simp only [fifoLoop, List.map_nil, List.sum_nil, sub_zero]
      exact (max_eq_right h).symm
  | cons e rest ih =>
      by_cases h1 : need ≤ 0
      · have hneed0 : need = 0 := le_antisymm h1 h
        subst hneed0
        have hr := sumMax0_nonneg rest
        have he := le_max_left (0 : ℚ) e.remaining
        simp only [fifoLoop, if_pos (le_refl (0 : ℚ)), List.map_cons,
          List.sum_cons]
        symm
        apply max_eq_left
        linarith
      · by_cases h2 : e.remaining ≤ 0
        · simp [fifoLoop, h1, h2, ih need h, max_eq_left h2]
        · push_neg at h1 h2
          have htake : 0 ≤ need - min need e.remaining := by
            have := min_le_left need e.remaining
            linarith
          have hrest := sumMax0_nonneg rest
          simp only [fifoLoop, if_neg (not_le.mpr h1), if_neg (not_le.mpr h2),
            List.map_cons, List.sum_cons, ih (need - min need e.remaining) htake,
            max_eq_right (le_of_lt h2)]
          rcases le_total need e.remaining with hc | hc
          · rw [min_eq_left hc]
            rw [max_eq_left (by linarith), max_eq_left (by linarith)]
          · rw [min_eq_right hc]
            rw [sub_sub]

theorem fifoLoop_avail_of_short (entries : List StockView) (need : ℚ)
    (h : 0 < (fifoLoop need entries).stillNeeded) :
    (fifoLoop need entries).totalAvailable =
      (entries.map (fun e => max 0 e.remaining)).sum := by
  induction entries generalizing need with
  | nil => simp [fifoLoop]
  | cons e rest ih =>
      by_cases h1 : need ≤ 0
      · simp [fifoLoop, h1] at h
        linarith
      · by_cases h2 : e.remaining ≤ 0
        · simp only [fifoLoop, if_neg h1, if_pos h2] at h ⊢
          simp only [List.map_cons, List.sum_cons, max_eq_left h2, ih need h]
          ring
        · simp only [fifoLoop, if_neg h1, if_neg h2] at h ⊢
          simp only [List.map_cons, List.sum_cons,
            ih (need - min need e.remaining) h,
            max_eq_right (le_of_lt (not_le.mp h2))]

theorem fifoLoop_ops_bound (entries : List StockView) (need : ℚ) :
    ∀ p ∈ (fifoLoop need entries).ops,
      ∃ e ∈ entries, p.1 = e.id ∧ p.2 ≤ e.remaining := by
  induction entries generalizing need with
  | nil => simp [fifoLoop]
  | cons e rest ih =>
      intro p hp
      by_cases h1 : need ≤ 0
      · simp [fifoLoop, h1] at hp
      · by_cases h2 : e.remaining ≤ 0
        · simp only [fifoLoop, if_neg h1, if_pos h2] at hp
          obtain ⟨e2, he2, h3⟩ := ih need p hp
          exact ⟨e2, List.mem_cons_of_mem e he2, h3⟩
        · simp only [fifoLoop, if_neg h1, if_neg h2, List.mem_cons] at hp
          rcases hp with hp | hp
          · refine ⟨e, List.mem_cons_self e rest, ?_, ?_⟩
            · rw [hp]
            · rw [hp]
              exact min_le_right need e.remaining
          · obtain ⟨e2, he2, h3⟩ := ih (need - min need e.remaining) p hp
            exact ⟨e2, List.mem_cons_of_mem e he2, h3⟩

theorem insertByDate_perm (e : StockView) (l : List StockView) :
    List.Perm (insertByDate e l) (e :: l) := by
  induction l with
  | nil => exact List.Perm.refl [e]
  | cons x xs ih =>
      unfold insertByDate
      by_cases h : e.purchaseDate ≤ x.purchaseDate
      · rw [if_pos h]
      · rw [if_neg h]
        exact (ih.cons x).trans (List.Perm.swap e x xs)

theorem sortByDate_perm (l : List StockView) : List.Perm (sortByDate l) l := by
  induction l with
  | nil => exact List.Perm.refl []
  | cons x xs ih => exact (insertByDate_perm x (sortByDate xs)).trans (ih.cons x)

theorem sortByDate_sum_max0 (l : List StockView) :
    ((sortByDate l).map (fun e => max 0 e.remaining)).sum =
      (l.map (fun e => max 0 e.remaining)).sum :=
  ((sortByDate_perm l).map (fun e => max 0 e.remaining)).sum_eq

/-- C2: the FIFO allocator walks lots sorted ascending by purchase date,
skipping non-positive lots and taking `min(remaining, stillNeeded)`; when
the lots are exhausted with stillNeeded > 0, the allocations sum to the
total available quantity over all candidate lots and the reported shortage
is exactly the required quantity minus that total. -/
theorem fifo_allocation_shortage (need : ℚ) (entries : List StockView)
    (hneed : 0 < need)
    (hshort : 0 < (fifoLoop need (sortByDate entries)).stillNeeded) :
    ((fifoLoop need (sortByDate entries)).ops.map (fun p => p.2)).sum =
      (entries.map (fun e => max 0 e.remaining)).sum ∧
    (fifoLoop need (sortByDate entries)).stillNeeded =
      need - (entries.map (fun e => max 0 e.remaining)).sum ∧
    (fifoLoop need (sortByDate entries)).totalAvailable =
      (entries.map (fun e => max 0 e.remaining)).sum := by
  have hstill := fifoLoop_stillNeeded_eq (sortByDate entries) need
    (le_of_lt hneed)
  rw [sortByDate_sum_max0] at hstill
  have hx : 0 < need - (entries.map (fun e => max 0 e.remaining)).sum := by
    rw [hstill] at hshort
    rcases lt_max_iff.mp hshort with hbad | hok
    · exact absurd hbad (lt_irrefl 0)
    · exact hok
  have hstill2 : (fifoLoop need (sortByDate entries)).stillNeeded =
      need - (entries.map (fun e => max 0 e.remaining)).sum := by
    rw [hstill]
    exact max_eq_right (le_of_lt hx)
  have havail := fifoLoop_avail_of_short (sortByDate entries) need hshort
  rw [sortByDate_sum_max0] at havail
  refine ⟨?_, hstill2, havail⟩
  rw [fifoLoop_alloc_sum, hstill2]
  ring

/-- Witness for C2 at the spec's numbers: required 20 against lots with
remaining 5 (older) and 2 (newer) allocates [5, 2] and reports shortage
13. -/
theorem fifo_allocation_shortage_witness :
    (fifoLoop 20 (sortByDate exEntriesFifo) = ⟨[(1, 5), (2, 2)], 13, 7⟩) ∧
    (((fifoLoop 20 (sortByDate exEntriesFifo)).ops.map (fun p => p.2)).sum =
      (exEntriesFifo.map (fun e => max 0 e.remaining)).sum ∧
    (fifoLoop 20 (sortByDate exEntriesFifo)).stillNeeded =
      20 - (exEntriesFifo.map (fun e => max 0 e.remaining)).sum ∧
    (fifoLoop 20 (sortByDate exEntriesFifo)).totalAvailable =
      (exEntriesFifo.map (fun e => max 0 e.remaining)).sum) := by
  constructor
  · norm_num [fifoLoop, sortByDate, insertByDate, exEntriesFifo]
  · exact fifo_allocation_shortage 20 exEntriesFifo (by norm_num)
      (by norm_num [fifoLoop, sortByDate, insertByDate, exEntriesFifo])

theorem planIngredient_required (db : Ledger) (uid ingId : Nat) (R : ℚ) :
    (planIngredient db uid ingId R).required = R := by
  unfold planIngredient
  by_cases he : (stockViewsFor db uid ingId).isEmpty
  · simp [he]
  · simp [he]

theorem planIngredient_ingredientId (db : Ledger) (uid ingId : Nat) (R : ℚ) :
    (planIngredient db uid ingId R).ingredientId = ingId := by
  unfold planIngredient
  by_cases he : (stockViewsFor db uid ingId).isEmpty
  · simp [he]
  · simp [he]

theorem planIngredient_shortage_cases (db : Ledger) (uid ingId : Nat) (R : ℚ) :
    (planIngredient db uid ingId R).shortage =
      (if (stockViewsFor db uid ingId).isEmpty then
        some ⟨ingId, R, 0, R⟩
      else if 0 < (fifoLoop R (sortByDate (stockViewsFor db uid ingId))).stillNeeded then
        some ⟨ingId, R,
          (fifoLoop R (sortByDate (stockViewsFor db uid ingId))).totalAvailable,
          (fifoLoop R (sortByDate (stockViewsFor db uid ingId))).stillNeeded⟩
      else none) := by
  unfold planIngredient
  by_cases he : (stockViewsFor db uid ingId).isEmpty
  · simp [he]
  · simp [he]

theorem planIngredient_ops_cases (db : Ledger) (uid ingId : Nat) (R : ℚ) :
    (planIngredient db uid ingId R).ops =
      (if (stockViewsFor db uid ingId).isEmpty then ([] : List UsageOp)
      else (fifoLoop R (sortByDate (stockViewsFor db uid ingId))).ops.map
        (fun p => ⟨p.1, p.2⟩)) := by
  unfold planIngredient
  by_cases he : (stockViewsFor db uid ingId).isEmpty
  · simp [he]
  · simp [he]

theorem planIngredient_shortage_structured (db : Ledger) (uid ingId : Nat)
    (R : ℚ) (hR : 0 < R) (s : Shortage)
    (hs : (planIngredient db uid ingId R).shortage = some s) :
    s.requiredQuantity = R ∧
    s.shortageQuantity = s.requiredQuantity - s.availableQuantity ∧
    0 < s.shortageQuantity := by
  rw [planIngredient_shortage_cases] at hs
  by_cases he : (stockViewsFor db uid ingId).isEmpty
  · rw [if_pos he, Option.some_inj] at hs
    subst hs
    exact ⟨rfl, by simp, hR⟩
  · rw [if_neg he] at hs
    by_cases hstill :
        0 < (fifoLoop R (sortByDate (stockViewsFor db uid ingId))).stillNeeded
    · rw [if_pos hstill, Option.some_inj] at hs
      subst hs
      have hstilleq := fifoLoop_stillNeeded_eq
        (sortByDate (stockViewsFor db uid ingId)) R (le_of_lt hR)
      rw [sortByDate_sum_max0] at hstilleq
      have hx : 0 < R -
          ((stockViewsFor db uid ingId).map (fun e => max 0 e.remaining)).sum := by
        rw [hstilleq] at hstill
        rcases lt_max_iff.mp hstill with hbad | hok
        · exact absurd hbad (lt_irrefl 0)
        · exact hok
      have havail := fifoLoop_avail_of_short
        (sortByDate (stockViewsFor db uid ingId)) R hstill
      rw [sortByDate_sum_max0] at havail
      refine ⟨rfl, ?_, hstill⟩
      show (fifoLoop R (sortByDate (stockViewsFor db uid ingId))).stillNeeded =
        R - (fifoLoop R (sortByDate (stockViewsFor db uid ingId))).totalAvailable
      rw [havail, hstilleq]
      exact max_eq_right (le_of_lt hx)
    · rw [if_neg hstill] at hs
      exact absurd hs (by simp)

theorem planIngredient_ops_sum (db : Ledger) (uid ingId : Nat) (R : ℚ)
    (hR : 0 < R) :
    (((planIngredient db uid ingId R).ops).map (fun o => o.quantityUsed)).sum =
      min R (availableOf db uid ingId) := by
  rw [planIngredient_ops_cases]
  unfold availableOf
  by_cases he : (stockViewsFor db uid ingId).isEmpty
  · have hnil : stockViewsFor db uid ingId = [] := by
      rwa [List.isEmpty_iff] at he
    rw [if_pos he, hnil]
    simp [min_eq_right (le_of_lt hR)]
  · rw [if_neg he, List.map_map]
    have hcomp : ((fifoLoop R (sortByDate (stockViewsFor db uid ingId))).ops.map
        ((fun o => o.quantityUsed) ∘ (fun p => (⟨p.1, p.2⟩ : UsageOp)))).sum =
        ((fifoLoop R (sortByDate (stockViewsFor db uid ingId))).ops.map
          (fun p => p.2)).sum := by
      congr 1
    rw [hcomp, fifoLoop_alloc_sum,
      fifoLoop_stillNeeded_eq _ R (le_of_lt hR), sortByDate_sum_max0]
    rcases le_total R
        ((stockViewsFor db uid ingId).map (fun e => max 0 e.remaining)).sum
      with hc | hc
    · rw [max_eq_left (by linarith), min_eq_left hc]
      ring
    · rw [max_eq_right (by linarith), min_eq_right hc]
      ring

theorem stockViewsFor_remaining (db : Ledger) (uid ingId : Nat) :
    ∀ e ∈ stockViewsFor db uid ingId,
      e.remaining = calculateRemainingQuantity db e.id uid := by
  intro e he
  unfold stockViewsFor at he
  obtain ⟨l, _, rfl⟩ := List.mem_map.mp he
  rfl

theorem usageOps_valid (db : Ledger) (uid : Nat) (reqs : List (Nat × ℚ)) :
    ∀ o ∈ usageOpsOf db uid reqs,
      o.quantityUsed ≤ calculateRemainingQuantity db o.stockId uid := by
  intro o ho
  unfold usageOpsOf at ho
  rw [List.mem_flatten] at ho
  obtain ⟨ops, hops, ho2⟩ := ho
  obtain ⟨p, hp, rfl⟩ := List.mem_map.mp hops
  unfold plansOf at hp
  obtain ⟨pr, _, rfl⟩ := List.mem_map.mp hp
  rw [planIngredient_ops_cases] at ho2
  by_cases he : (stockViewsFor db uid pr.1).isEmpty
  · rw [if_pos he] at ho2
    exact absurd ho2 (List.not_mem_nil o)
  · rw [if_neg he] at ho2
    obtain ⟨q, hq, rfl⟩ := List.mem_map.mp ho2
    obtain ⟨e, he2, hid, hle⟩ := fifoLoop_ops_bound
      (sortByDate (stockViewsFor db uid pr.1)) pr.2 q hq
    have he3 : e ∈ stockViewsFor db uid pr.1 :=
      (sortByDate_perm (stockViewsFor db uid pr.1)).subset he2
    have hrem := stockViewsFor_remaining db uid pr.1 e he3
    show q.2 ≤ calculateRemainingQuantity db q.1 uid
    rw [hid]
    rw [hrem] at hle
    exact hle

theorem batchRecordUsage_ok_of_valid (db : Ledger) (ops : List UsageOp)
    (uid : Nat)
    (h : ∀ o ∈ ops, o.quantityUsed ≤ calculateRemainingQuantity db o.stockId uid) :
    batchRecordUsage db ops uid = Except.ok
      { db with usage := db.usage ++
          ops.map (fun o => ⟨o.stockId, o.quantityUsed⟩) } := by
  unfold batchRecordUsage
  by_cases he : ops.isEmpty
  · have hnil : ops = [] := by rwa [List.isEmpty_iff] at he
    subst hnil
    simp
  · have hall : ops.all (fun o =>
        decide (o.quantityUsed ≤ calculateRemainingQuantity db o.stockId uid)) =
        true := by
      rw [List.all_eq_true]
      intro o ho
      exact decide_eq_true (h o ho)
    simp [he, hall]

/-- C3: with shortages present and `allowPartialStock` unset,
`completeRecipe` returns `success: false` with the structured shortage
report and leaves the database untouched — no usage events are written for
any ingredient, so every lot's remaining quantity is unchanged. -/
theorem completeRecipe_all_or_nothing (db : Ledger) (uid : Nat)
    (reqs : List (Nat × ℚ)) (h : shortagesOf db uid reqs ≠ []) :
    completeRecipe db uid reqs false =
      Except.ok ⟨false, shortagesOf db uid reqs, db⟩ ∧
    ∀ s ∈ shortagesOf db uid reqs,
      s.shortageQuantity = s.requiredQuantity - s.availableQuantity ∧
      0 < s.shortageQuantity := by
  constructor
  · have hne : (shortagesOf db uid reqs).isEmpty = false := by
      rcases hl : shortagesOf db uid reqs with _ | ⟨a, t⟩
      · exact absurd hl h
      · rfl
    simp [completeRecipe, hne]
  · intro s hs
    unfold shortagesOf at hs
    rw [List.mem_filterMap] at hs
    obtain ⟨p, hp, hps⟩ := hs
    unfold plansOf at hp
    obtain ⟨pr, hpr, rfl⟩ := List.mem_map.mp hp
    have hR : 0 < pr.2 := by
      have := (List.mem_filter.mp hpr).2
      exact of_decide_eq_true this
    obtain ⟨_, h2, h3⟩ :=
      planIngredient_shortage_structured db uid pr.1 pr.2 hR s hps
    exact ⟨h2, h3⟩

/-- Witness for C3: ingredient 1 is fully satisfiable and ingredient 2 is
short by 2; without `allowPartialStock` the call reports the shortage and
writes nothing. -/
theorem completeRecipe_all_or_nothing_witness :
    (shortagesOf exLedgerAB 1 exReqsAB = [⟨2, 3, 1, 2⟩]) ∧
    (completeRecipe exLedgerAB 1 exReqsAB false =
      Except.ok ⟨false, shortagesOf exLedgerAB 1 exReqsAB, exLedgerAB⟩ ∧
    ∀ s ∈ shortagesOf exLedgerAB 1 exReqsAB,
      s.shortageQuantity = s.requiredQuantity - s.availableQuantity ∧
      0 < s.shortageQuantity) := by
  constructor
  · norm_num [shortagesOf, plansOf, planIngredient, exLedgerAB, exReqsAB,
      stockViewsFor, calculateRemainingQuantity, findLot, matchingLots,
      usageSumUser, spoilSumUser, usageSumRaw, spoilSumRaw, toFixed2, round_eq,
      sortByDate, insertByDate, fifoLoop, List.filterMap_cons]
  · apply completeRecipe_all_or_nothing exLedgerAB 1 exReqsAB
    norm_num [shortagesOf, plansOf, planIngredient, exLedgerAB, exReqsAB,
      stockViewsFor, calculateRemainingQuantity, findLot, matchingLots,
      usageSumUser, spoilSumUser, usageSumRaw, spoilSumRaw, toFixed2, round_eq,
      sortByDate, insertByDate, fifoLoop, List.filterMap_cons]

/-- C6: with shortages present and `allowPartialStock` set,
`completeRecipe` returns `success: true` together with the shortage list,
and writes the planned usage events — for every processed ingredient the
written quantities sum to `min(required, available)`: the full amount when
satisfiable, the whole available amount when short. -/
theorem completeRecipe_partial_mode (db : Ledger) (uid : Nat)
    (reqs : List (Nat × ℚ)) (h : shortagesOf db uid reqs ≠ []) :
    completeRecipe db uid reqs true =
      Except.ok ⟨true, shortagesOf db uid reqs,
        { db with usage := db.usage ++
            (usageOpsOf db uid reqs).map (fun o => ⟨o.stockId, o.quantityUsed⟩) }⟩ ∧
    ∀ p ∈ plansOf db uid reqs,
      (p.ops.map (fun o => o.quantityUsed)).sum =
        min p.required (availableOf db uid p.ingredientId) := by
  constructor
  · unfold completeRecipe
    simp only [Bool.not_true, Bool.and_false, Bool.false_eq_true, if_false]
    by_cases hops : (usageOpsOf db uid reqs).isEmpty
    · have hnil : usageOpsOf db uid reqs = [] := by
        rwa [List.isEmpty_iff] at hops
      simp [hops, hnil]
    · rw [if_neg hops, batchRecordUsage_ok_of_valid db (usageOpsOf db uid reqs)
        uid (usageOps_valid db uid reqs)]
      simp [Except.map]
  · intro p hp
    unfold plansOf at hp
    obtain ⟨pr, hpr, rfl⟩ := List.mem_map.mp hp
    have hR : 0 < pr.2 := by
      have := (List.mem_filter.mp hpr).2
      exact of_decide_eq_true this
    rw [planIngredient_required, planIngredient_ingredientId]
    exact planIngredient_ops_sum db uid pr.1 pr.2 hR

/-- Witness for C6: same two-ingredient setup with `allowPartialStock`:
usage 5 is written for the satisfiable ingredient, usage 1 (all that is
available) for the short one, and the shortage list names ingredient 2. -/
theorem completeRecipe_partial_mode_witness :
    (completeRecipe exLedgerAB 1 exReqsAB true =
      Except.ok ⟨true, [⟨2, 3, 1, 2⟩], exLedgerABAfter⟩) ∧
    (completeRecipe exLedgerAB 1 exReqsAB true =
      Except.ok ⟨true, shortagesOf exLedgerAB 1 exReqsAB,
        { exLedgerAB with usage := exLedgerAB.usage ++
            (usageOpsOf exLedgerAB 1 exReqsAB).map (fun o =>
              ⟨o.stockId, o.quantityUsed⟩) }⟩ ∧
    ∀ p ∈ plansOf exLedgerAB 1 exReqsAB,
      (p.ops.map (fun o => o.quantityUsed)).sum =
        min p.required (availableOf exLedgerAB 1 p.ingredientId)) := by
  constructor
  · norm_num [completeRecipe, shortagesOf, usageOpsOf, plansOf, planIngredient,
      exLedgerAB, exReqsAB, exLedgerABAfter, stockViewsFor,
      calculateRemainingQuantity, findLot, matchingLots, usageSumUser,
      spoilSumUser, usageSumRaw, spoilSumRaw, toFixed2, round_eq, sortByDate,
      insertByDate, fifoLoop, batchRecordUsage, List.filterMap_cons, Except.map]
  · apply completeRecipe_partial_mode exLedgerAB 1 exReqsAB
    norm_num [shortagesOf, plansOf, planIngredient, exLedgerAB, exReqsAB,
      stockViewsFor, calculateRemainingQuantity, findLot, matchingLots,
      usageSumUser, spoilSumUser, usageSumRaw, spoilSumRaw, toFixed2, round_eq,
      sortByDate, insertByDate, fifoLoop, List.filterMap_cons]

theorem usageSumRaw_append (db : Ledger) (sid : Nat) (q : ℚ) :
    usageSumRaw { db with usage := db.usage ++ [⟨sid, q⟩] } sid =
      usageSumRaw db sid + q := by
  unfold usageSumRaw
  rw [List.filter_append, List.map_append, List.sum_append]
  simp

theorem spoilSumRaw_append (db : Ledger) (sid : Nat) (q : ℚ) :
    spoilSumRaw { db with spoilage := db.spoilage ++ [⟨sid, q⟩] } sid =
      spoilSumRaw db sid + q := by
  unfold spoilSumRaw
  rw [List.filter_append, List.map_append, List.sum_append]
  simp

theorem accepted_consumption_bound (Q S q : ℚ) (hS : S ≤ Q + 1 / 200)
    (hq : q ≤ toFixed2 (max 0 (Q - S))) : S + q ≤ Q + 1 / 200 := by
  rcases le_total S Q with hc | hc
  · have h1 : max 0 (Q - S) = Q - S := max_eq_right (by linarith)
    have h2 := toFixed2_le (Q - S)
    rw [h1] at hq
    linarith
  · have h1 : max 0 (Q - S) = 0 := max_eq_left (by linarith)
    rw [h1, toFixed2_zero] at hq
    linarith

/-- C4 (amended): a usage or spoilage insert is accepted only when its
quantity does not exceed the lot's recomputed remaining quantity, which is
the 2-decimal rounding of `max(0, quantity - consumed)`; because that
rounding can round up by as much as 0.005, an accepted single-event write
preserves `sum(usage) + sum(spoilage) <= lot.quantity + 0.005` (not the
claimed unrounded bound); the batch usage write validates every item
against the batch remaining map before inserting, and on success appends
exactly the validated records. -/
theorem consumption_check_bounded_overrun (db : Ledger) (sid uid : Nat)
    (q : ℚ) (lot : Lot) (hwf : db.WF) (hfind : findLot db sid uid = some lot)
    (hinv : ledgerConsumed db sid ≤ lot.quantity + 1 / 200) :
    (∀ db2, recordUsage db sid q uid = Except.ok db2 →
      ledgerConsumed db2 sid ≤ lot.quantity + 1 / 200) ∧
    (∀ db2, recordSpoilage db sid q uid = Except.ok db2 →
      ledgerConsumed db2 sid ≤ lot.quantity + 1 / 200) ∧
    (∀ ops db2, batchRecordUsage db ops uid = Except.ok db2 →
      (∀ o ∈ ops, o.quantityUsed ≤ calculateRemainingQuantity db o.stockId uid) ∧
      db2.usage = db.usage ++ ops.map (fun o => ⟨o.stockId, o.quantityUsed⟩)) := by
  have hcalc : calculateRemainingQuantity db sid uid =
      toFixed2 (max 0 (lot.quantity - ledgerConsumed db sid)) := by
    rw [calculateRemainingQuantity_eq db sid uid lot hwf hfind]
    unfold ledgerConsumed
    rw [sub_sub]
  refine ⟨?_, ?_, ?_⟩
  · intro db2 hok
    simp only [recordUsage, hfind] at hok
    by_cases hlt : calculateRemainingQuantity db sid uid < q
    · rw [if_pos hlt] at hok
      exact absurd hok (by simp)
    · rw [if_neg hlt] at hok
      rw [Except.ok.injEq] at hok
      subst hok
      have hq : q ≤ toFixed2 (max 0 (lot.quantity - ledgerConsumed db sid)) := by
        rw [← hcalc]
        exact not_lt.mp hlt
      have hrw : ledgerConsumed { db with usage := db.usage ++ [⟨sid, q⟩] } sid =
          ledgerConsumed db sid + q := by
        unfold ledgerConsumed
        rw [usageSumRaw_append]
        have hsp : spoilSumRaw { db with usage := db.usage ++ [⟨sid, q⟩] } sid =
            spoilSumRaw db sid := rfl
        rw [hsp]
        ring
      rw [hrw]
      exact accepted_consumption_bound lot.quantity (ledgerConsumed db sid) q
        hinv hq
  · intro db2 hok
    simp only [recordSpoilage, hfind] at hok
    by_cases hlt : calculateRemainingQuantity db sid uid < q
    · rw [if_pos hlt] at hok
      exact absurd hok (by simp)
    · rw [if_neg hlt] at hok
      rw [Except.ok.injEq] at hok
      subst hok
      have hq : q ≤ toFixed2 (max 0 (lot.quantity - ledgerConsumed db sid)) := by
        rw [← hcalc]
        exact not_lt.mp hlt
      have hrw : ledgerConsumed { db with spoilage := db.spoilage ++ [⟨sid, q⟩] } sid =
          ledgerConsumed db sid + q := by
        unfold ledgerConsumed
        rw [spoilSumRaw_append]
        have hus : usageSumRaw { db with spoilage := db.spoilage ++ [⟨sid, q⟩] } sid =
            usageSumRaw db sid := rfl
        rw [hus]
        ring
      rw [hrw]
      exact accepted_consumption_bound lot.quantity (ledgerConsumed db sid) q
        hinv hq
  · intro ops db2 hok
    unfold batchRecordUsage at hok
    by_cases he : ops.isEmpty
    · have hnil : ops = [] := by rwa [List.isEmpty_iff] at he
      subst hnil
      simp at hok
      subst hok
      exact ⟨by simp, by simp⟩
    · rw [if_neg he] at hok
      by_cases hall : ops.all (fun o =>
          decide (o.quantityUsed ≤ calculateRemainingQuantity db o.stockId uid)) = true
      · rw [if_pos hall, Except.ok.injEq] at hok
        subst hok
        refine ⟨?_, rfl⟩
        intro o ho
        have := List.all_eq_true.mp hall o ho
        exact of_decide_eq_true this
      · rw [if_neg hall] at hok
        exact absurd hok (by simp)

/-- Witness for C4's amended bound: the `exLedgerRound` write of 0.01 is
accepted and the bounded invariant holds afterwards. -/
theorem consumption_check_bounded_overrun_witness :
    (exLedgerRound.WF ∧
      findLot exLedgerRound 1 1 = some ⟨1, 1, 1, 1, 10, 10, 0⟩ ∧
      ledgerConsumed exLedgerRound 1 ≤ (10 : ℚ) + 1 / 200) ∧
    ((∀ db2, recordUsage exLedgerRound 1 (1/100) 1 = Except.ok db2 →
      ledgerConsumed db2 1 ≤ (⟨1, 1, 1, 1, 10, 10, 0⟩ : Lot).quantity + 1 / 200) ∧
    (∀ db2, recordSpoilage exLedgerRound 1 (1/100) 1 = Except.ok db2 →
      ledgerConsumed db2 1 ≤ (⟨1, 1, 1, 1, 10, 10, 0⟩ : Lot).quantity + 1 / 200) ∧
    (∀ ops db2, batchRecordUsage exLedgerRound ops 1 = Except.ok db2 →
      (∀ o ∈ ops, o.quantityUsed ≤
        calculateRemainingQuantity exLedgerRound o.stockId 1) ∧
      db2.usage = exLedgerRound.usage ++
        ops.map (fun o => ⟨o.stockId, o.quantityUsed⟩))) := by
  constructor
  · refine ⟨by decide, ?_, ?_⟩
    · norm_num [findLot, matchingLots, exLedgerRound]
    · norm_num [ledgerConsumed, usageSumRaw, spoilSumRaw, exLedgerRound]
  · exact consumption_check_bounded_overrun exLedgerRound 1 1 (1/100)
      ⟨1, 1, 1, 1, 10, 10, 0⟩ (by decide)
      (by norm_num [findLot, matchingLots, exLedgerRound])
      (by norm_num [ledgerConsumed, usageSumRaw, spoilSumRaw, exLedgerRound])

/-- Counterexample to C4 as stated: with quantity 10 and prior usage
9.9921875, the true remaining is 0.0078125, but `toFixed(2)` reports 0.01,
so a usage insert of 0.01 is accepted — after it,
`sum(usage) + sum(spoilage) = 10.0021875 > 10 = lot.quantity`, breaking
the claimed unrounded ledger invariant. -/
theorem consumption_check_overrun_counterexample :
    calculateRemainingQuantity exLedgerRound 1 1 = 1 / 100 ∧
    recordUsage exLedgerRound 1 (1/100) 1 = Except.ok exLedgerRoundAfter ∧
    (∀ l ∈ exLedgerRound.lots, l.quantity = 10) ∧
    (10 : ℚ) < ledgerConsumed exLedgerRoundAfter 1 := by
  refine ⟨?_, ?_, ?_, ?_⟩
  · norm_num [calculateRemainingQuantity, findLot, matchingLots, exLedgerRound,
      usageSumUser, spoilSumUser, usageSumRaw, spoilSumRaw, toFixed2, round_eq]
  · norm_num [recordUsage, calculateRemainingQuantity, findLot, matchingLots,
      exLedgerRound, exLedgerRoundAfter, usageSumUser, spoilSumUser,
      usageSumRaw, spoilSumRaw, toFixed2, round_eq]
  · intro l hl
    rcases List.mem_singleton.mp hl with rfl
    norm_num
  · norm_num [ledgerConsumed, exLedgerRoundAfter, exLedgerRound, usageSumRaw,
      spoilSumRaw]

/-- C5 (code bug): the `getAllStock` aggregation left-joins usage and
spoilage in a single grouped query, so the usage sum is fanned out over the
spoilage rows: on a lot with quantity 10, usage [2] and spoilage [1, 1],
the SQL usage total becomes 4 instead of 2 and `getAllStock` reports total
stock 4, while the per-lot reference (`calculateRemainingQuantity` summed
over lots) gives 6. -/
theorem getAllStock_fanout_bug :
    getAllStock exLedgerFanout 1 = [⟨7, 4, [(3, 4)]⟩] ∧
    referenceIngredientStock exLedgerFanout 1 7 = 6 ∧
    sqlTotalUsed exLedgerFanout 1 = 4 ∧
    usageSumRaw exLedgerFanout 1 = 2 ∧
    (4 : ℚ) ≠ 6 := by
  refine ⟨?_, ?_, ?_, ?_, by norm_num⟩
  · norm_num [getAllStock, exLedgerFanout, lotsOfIngredient,
      getAllStockLotRemaining, getAllStockLocRemaining, sqlTotalUsed,
      sqlTotalSpoiled, joinRowsFor, List.dedup, toFixed2, round_eq]
  · norm_num [referenceIngredientStock, exLedgerFanout, lotsOfIngredient,
      calculateRemainingQuantity, findLot, matchingLots, usageSumUser,
      spoilSumUser, usageSumRaw, spoilSumRaw, toFixed2, round_eq]
  · norm_num [sqlTotalUsed, joinRowsFor, exLedgerFanout]
  · norm_num [usageSumRaw, exLedgerFanout]

theorem isNum_exists (v : JSVal) (h : v.isNum = true) :
    ∃ x, v = JSVal.num x := by
  cases v with
  | num x => exact ⟨x, rfl⟩
  | inf => simp [JSVal.isNum] at h
  | ninf => simp [JSVal.isNum] at h
  | nan => simp [JSVal.isNum] at h

theorem jsDiv_ne_zero (p q : ℚ) (hq : q ≠ 0) :
    jsDiv p q = JSVal.num (p / q) := by
  unfold jsDiv
  rw [if_pos hq]

theorem latestLot_foldl_mem (l : List Lot) :
    ∀ (acc : Option Lot) (lot : Lot),
      l.foldl (fun a x =>
        match a with
        | none => some x
        | some b => if b.purchaseDate < x.purchaseDate then some x else some b)
        acc = some lot →
      acc = some lot ∨ lot ∈ l := by
  induction l with
  | nil =>
      intro acc lot h
      rw [List.foldl_nil] at h
      exact Or.inl h
  | cons x xs ih =>
      intro acc lot h
      rw [List.foldl_cons] at h
      rcases ih _ lot h with h2 | h2
      · cases acc with
        | none =>
            right
            rw [Option.some_inj] at h2
            rw [← h2]
            exact List.mem_cons_self x xs
        | some b =>
            have h3 : (if b.purchaseDate < x.purchaseDate then some x
                else some b) = some lot := h2
            by_cases hc : b.purchaseDate < x.purchaseDate
            · rw [if_pos hc, Option.some_inj] at h3
              right
              rw [← h3]
              exact List.mem_cons_self x xs
            · rw [if_neg hc] at h3
              exact Or.inl h3
      · exact Or.inr (List.mem_cons_of_mem x h2)

theorem latestLotFor_mem (db : Ledger) (ingId uid : Nat) (lot : Lot)
    (h : latestLotFor db ingId uid = some lot) : lot ∈ db.lots := by
  unfold latestLotFor at h
  rcases latestLot_foldl_mem (lotsOfIngredient db uid ingId) none lot h
    with h2 | h2
  · exact absurd h2 (by simp)
  · exact List.mem_of_mem_filter h2

theorem overallStats_foldl_isNum (db : Ledger) :
    ∀ (l : List Lot), (∀ x ∈ l, 0 < x.quantity) →
    ∀ acc : OverallStats, acc.totalValue.isNum = true →
      acc.remainingValue.isNum = true →
      (l.foldl (overallStatsStep db) acc).totalValue.isNum = true ∧
      (l.foldl (overallStatsStep db) acc).remainingValue.isNum = true := by
  intro l
  induction l with
  | nil =>
      intro _ acc h1 h2
      rw [List.foldl_nil]
      exact ⟨h1, h2⟩
  | cons x xs ih =>
      intro hq acc h1 h2
      rw [List.foldl_cons]
      have hx : x.quantity ≠ 0 :=
        ne_of_gt (hq x (List.mem_cons_self x xs))
      obtain ⟨a, ha⟩ := isNum_exists _ h1
      obtain ⟨b, hb⟩ := isNum_exists _ h2
      apply ih (fun y hy => hq y (List.mem_cons_of_mem x hy))
      · show (jsAdd acc.totalValue (jsMul (JSVal.num x.quantity)
          (jsDiv x.purchasePrice x.quantity))).isNum = true
        rw [ha, jsDiv_ne_zero x.purchasePrice x.quantity hx]
        rfl
      · show (jsAdd acc.remainingValue (jsMul
          (JSVal.num (min (max 0 (x.quantity - usageSumRaw db x.id -
            spoilSumRaw db x.id)) x.quantity))
          (jsDiv x.purchasePrice x.quantity))).isNum = true
        rw [hb, jsDiv_ne_zero x.purchasePrice x.quantity hx]
        rfl

theorem ingAnalytics_foldl_isNum (db : Ledger) :
    ∀ (l : List Lot), (∀ x ∈ l, 0 < x.quantity) →
    ∀ acc : IngAnalyticsAcc, acc.totalValue.isNum = true →
      acc.remainingValue.isNum = true → acc.totalPricePerUnit.isNum = true →
      (l.foldl (ingAnalyticsStep db) acc).totalValue.isNum = true ∧
      (l.foldl (ingAnalyticsStep db) acc).remainingValue.isNum = true ∧
      (l.foldl (ingAnalyticsStep db) acc).totalPricePerUnit.isNum = true := by
  intro l
  induction l with
  | nil =>
      intro _ acc h1 h2 h3
      rw [List.foldl_nil]
      exact ⟨h1, h2, h3⟩
  | cons x xs ih =>
      intro hq acc h1 h2 h3
      rw [List.foldl_cons]
      have hx : x.quantity ≠ 0 :=
        ne_of_gt (hq x (List.mem_cons_self x xs))
      obtain ⟨a, ha⟩ := isNum_exists _ h1
      obtain ⟨b, hb⟩ := isNum_exists _ h2
      obtain ⟨c, hc⟩ := isNum_exists _ h3
      apply ih (fun y hy => hq y (List.mem_cons_of_mem x hy))
      · show (jsAdd acc.totalValue (jsMul (JSVal.num x.quantity)
          (jsDiv x.purchasePrice x.quantity))).isNum = true
        rw [ha, jsDiv_ne_zero x.purchasePrice x.quantity hx]
        rfl
      · show (jsAdd acc.remainingValue (jsMul
          (JSVal.num (min (max 0 (x.quantity - usageSumRaw db x.id -
            spoilSumRaw db x.id)) x.quantity))
          (jsDiv x.purchasePrice x.quantity))).isNum = true
        rw [hb, jsDiv_ne_zero x.purchasePrice x.quantity hx]
        rfl
      · show (jsAdd acc.totalPricePerUnit
          (jsDiv x.purchasePrice x.quantity)).isNum = true
        rw [hc, jsDiv_ne_zero x.purchasePrice x.quantity hx]
        rfl

/-- C7 (amended): the recipe-cost site guards its unit-price derivation
(zero-quantity lots yield 0), but the analytics sites divide
`purchasePrice / quantity` unguarded; for lots with positive quantity —
the only lots the purchase API admits — every price source computes
`purchasePrice / quantity` and all value aggregates stay finite. -/
theorem unit_price_policy (db : Ledger) (uid : Nat)
    (hq : ∀ l ∈ db.lots, 0 < l.quantity) :
    (∀ ingId lot, latestLotFor db ingId uid = some lot →
      unitPriceOf db ingId uid = lot.purchasePrice / lot.quantity) ∧
    (calculateOverallStatistics db uid).totalValue.isNum = true ∧
    (calculateOverallStatistics db uid).remainingValue.isNum = true ∧
    (∀ ingId res, calculateIngredientAnalytics db ingId uid = Except.ok res →
      res.totalValue.isNum = true ∧ res.remainingValue.isNum = true ∧
      res.averagePricePerUnit.isNum = true) ∧
    (∀ (db2 : Ledger) (ingId uid2 : Nat) (lot : Lot),
      latestLotFor db2 ingId uid2 = some lot → ¬0 < lot.quantity →
      unitPriceOf db2 ingId uid2 = 0) := by
  refine ⟨?_, ?_, ?_, ?_, ?_⟩
  · intro ingId lot hlat
    unfold unitPriceOf
    rw [hlat]
    show (if 0 < lot.quantity then lot.purchasePrice / lot.quantity else 0) =
      lot.purchasePrice / lot.quantity
    rw [if_pos (hq lot (latestLotFor_mem db ingId uid lot hlat))]
  · exact (overallStats_foldl_isNum db (lotsOf db uid)
      (fun x hx => hq x (List.mem_of_mem_filter hx))
      ⟨JSVal.num 0, JSVal.num 0, 0⟩ rfl rfl).1
  · exact (overallStats_foldl_isNum db (lotsOf db uid)
      (fun x hx => hq x (List.mem_of_mem_filter hx))
      ⟨JSVal.num 0, JSVal.num 0, 0⟩ rfl rfl).2
  · intro ingId res hok
    unfold calculateIngredientAnalytics at hok
    by_cases hmiss : (db.ingredients.filter
        (fun i => i.id == ingId && i.userId == uid)).isEmpty
    · rw [if_pos hmiss] at hok
      exact absurd hok (by simp)
    · rw [if_neg hmiss] at hok
      by_cases hstocks : (lotsOfIngredient db uid ingId).isEmpty
      · rw [if_pos hstocks, Except.ok.injEq] at hok
        subst hok
        exact ⟨rfl, rfl, rfl⟩
      · rw [if_neg hstocks, Except.ok.injEq] at hok
        subst hok
        have hsub : ∀ x ∈ lotsOfIngredient db uid ingId, 0 < x.quantity :=
          fun x hx => hq x (List.mem_of_mem_filter hx)
        obtain ⟨ht, hr, hp⟩ := ingAnalytics_foldl_isNum db
          (lotsOfIngredient db uid ingId) hsub
          ⟨JSVal.num 0, JSVal.num 0, JSVal.num 0⟩ rfl rfl rfl
        refine ⟨ht, hr, ?_⟩
        obtain ⟨t, htp⟩ := isNum_exists _ hp
        have hlen : ((lotsOfIngredient db uid ingId).length : ℚ) ≠ 0 := by
          have hne : lotsOfIngredient db uid ingId ≠ [] := by
            intro hnil
            rw [← List.isEmpty_iff] at hnil
            exact hstocks hnil
          have hpos := List.length_pos.mpr hne
          exact Nat.cast_ne_zero.mpr (Nat.pos_iff_ne_zero.mp hpos)
        show (jsDivVal (List.foldl (ingAnalyticsStep db)
          ⟨JSVal.num 0, JSVal.num 0, JSVal.num 0⟩
          (lotsOfIngredient db uid ingId)).totalPricePerUnit
          ((lotsOfIngredient db uid ingId).length : ℚ)).isNum = true
        rw [htp]
        show (jsDiv t ((lotsOfIngredient db uid ingId).length : ℚ)).isNum = true
        rw [jsDiv_ne_zero t _ hlen]
        rfl
  · intro db2 ingId uid2 lot hlat hneg
    unfold unitPriceOf
    rw [hlat]
    show (if 0 < lot.quantity then lot.purchasePrice / lot.quantity else 0) = 0
    rw [if_neg hneg]

/-- Witness for C7's amended policy at a positive lot: quantity 4 for 20
gives unit price 5 and finite aggregates. -/
theorem unit_price_policy_witness :
    ((∀ l ∈ exLedgerPos.lots, 0 < l.quantity) ∧
      unitPriceOf exLedgerPos 1 1 = 5) ∧
    ((∀ ingId lot, latestLotFor exLedgerPos ingId 1 = some lot →
      unitPriceOf exLedgerPos ingId 1 = lot.purchasePrice / lot.quantity) ∧
    (calculateOverallStatistics exLedgerPos 1).totalValue.isNum = true ∧
    (calculateOverallStatistics exLedgerPos 1).remainingValue.isNum = true ∧
    (∀ ingId res,
      calculateIngredientAnalytics exLedgerPos ingId 1 = Except.ok res →
      res.totalValue.isNum = true ∧ res.remainingValue.isNum = true ∧
      res.averagePricePerUnit.isNum = true) ∧
    (∀ (db2 : Ledger) (ingId uid2 : Nat) (lot : Lot),
      latestLotFor db2 ingId uid2 = some lot → ¬0 < lot.quantity →
      unitPriceOf db2 ingId uid2 = 0)) := by
  constructor
  · constructor
    · intro l hl
      rcases List.mem_singleton.mp hl with rfl
      norm_num
    · norm_num [unitPriceOf, latestLotFor, lotsOfIngredient, exLedgerPos]
  · exact unit_price_policy exLedgerPos 1 (by
      intro l hl
      rcases List.mem_singleton.mp hl with rfl
      norm_num)

/-- Counterexample to C7 as stated: a zero-quantity lot priced 5 makes the
analytics sites divide by zero — `calculateOverallStatistics` returns NaN
value aggregates and `calculateIngredientAnalytics` returns NaN totals with
an Infinity average price — while the recipe-cost site's guarded unit
price returns 0 for the same lot. -/
theorem unit_price_divzero_counterexample :
    (calculateOverallStatistics exLedgerZeroQty 1).totalValue = JSVal.nan ∧
    (calculateOverallStatistics exLedgerZeroQty 1).remainingValue = JSVal.nan ∧
    calculateIngredientAnalytics exLedgerZeroQty 1 1 =
      Except.ok ⟨JSVal.nan, JSVal.nan, JSVal.inf, 1⟩ ∧
    unitPriceOf exLedgerZeroQty 1 1 = 0 := by
  refine ⟨?_, ?_, ?_, ?_⟩
  · norm_num [calculateOverallStatistics, lotsOf, exLedgerZeroQty,
      overallStatsStep, jsDiv, jsMul, jsAdd, usageSumRaw, spoilSumRaw]
  · norm_num [calculateOverallStatistics, lotsOf, exLedgerZeroQty,
      overallStatsStep, jsDiv, jsMul, jsAdd, usageSumRaw, spoilSumRaw]
  · norm_num [calculateIngredientAnalytics, exLedgerZeroQty, lotsOfIngredient,
      ingAnalyticsStep, jsDiv, jsMul, jsAdd, jsDivVal, usageSumRaw,
      spoilSumRaw]
  · norm_num [unitPriceOf, latestLotFor, lotsOfIngredient, exLedgerZeroQty]

theorem breakdown_sum (db : Ledger) (uid : Nat)
    (ings : List RecipeIngredient) (m : ℚ) :
    ((ings.map (fun ri =>
      (⟨ri.ingredientId, ri.quantity * m, unitPriceOf db ri.ingredientId uid,
        ri.quantity * m * unitPriceOf db ri.ingredientId uid⟩ :
          BreakdownItem))).map (fun b => b.subtotal)).sum =
      m * ((ings.map (fun ri =>
        ri.quantity * unitPriceOf db ri.ingredientId uid)).sum) := by
  induction ings with
  | nil => simp
  | cons x xs ih =>
      rw [List.map_cons, List.map_cons, List.sum_cons, List.map_cons,
        List.sum_cons, ih]
      show x.quantity * m * unitPriceOf db x.ingredientId uid + _ = _
      ring

theorem recipeCost_total_general (db : Ledger) (recipe : Recipe) (uid : Nat)
    (d : Option ℚ) :
    (calculateRecipeCost db recipe uid d).totalCost =
      ((match d with
        | some x => if x = 0 then recipe.serves else x
        | none => recipe.serves) / recipe.serves) *
      ((recipe.ingredients.map (fun ri =>
        ri.quantity * unitPriceOf db ri.ingredientId uid)).sum) := by
  show ((recipe.ingredients.map (fun ri =>
    (⟨ri.ingredientId,
      ri.quantity * ((match d with
        | some x => if x = 0 then recipe.serves else x
        | none => recipe.serves) / recipe.serves),
      unitPriceOf db ri.ingredientId uid,
      ri.quantity * ((match d with
        | some x => if x = 0 then recipe.serves else x
        | none => recipe.serves) / recipe.serves) *
        unitPriceOf db ri.ingredientId uid⟩ : BreakdownItem))).map
    (fun b => b.subtotal)).sum = _
  exact breakdown_sum db uid recipe.ingredients _

theorem recipeCost_perServing_general (db : Ledger) (recipe : Recipe)
    (uid : Nat) (d : Option ℚ) :
    (calculateRecipeCost db recipe uid d).costPerServing =
      (calculateRecipeCost db recipe uid d).totalCost /
        (match d with
          | some x => if x = 0 then recipe.serves else x
          | none => recipe.serves) := rfl

/-- C8: with base serves S > 0 and desired servings N > 0,
`calculateRecipeCost` scales every subtotal by N / S, so the total cost at
N servings is (N / S) times the base total cost and the cost per serving
is unchanged by the scaling. -/
theorem recipe_cost_scaling (db : Ledger) (recipe : Recipe) (uid : Nat)
    (N : ℚ) (hS : 0 < recipe.serves) (hN : 0 < N) :
    (calculateRecipeCost db recipe uid (some N)).totalCost =
      (N / recipe.serves) * (calculateRecipeCost db recipe uid none).totalCost ∧
    (calculateRecipeCost db recipe uid (some N)).costPerServing =
      (calculateRecipeCost db recipe uid none).costPerServing := by
  have hS0 : recipe.serves ≠ 0 := ne_of_gt hS
  have hN0 : N ≠ 0 := ne_of_gt hN
  have hmatchN : (match some N with
      | some x => if x = 0 then recipe.serves else x
      | none => recipe.serves) = N := by
    show (if N = 0 then recipe.serves else N) = N
    rw [if_neg hN0]
  have hmatchNone : (match (none : Option ℚ) with
      | some x => if x = 0 then recipe.serves else x
      | none => recipe.serves) = recipe.serves := rfl
  have h1 := recipeCost_total_general db recipe uid (some N)
  rw [hmatchN] at h1
  have h2 := recipeCost_total_general db recipe uid none
  rw [hmatchNone, div_self hS0, one_mul] at h2
  constructor
  · rw [h1, h2]
  · rw [recipeCost_perServing_general db recipe uid (some N),
      recipeCost_perServing_general db recipe uid none, hmatchN, hmatchNone,
      h1, h2]
    field_simp
    ring

/-- Witness for C8 at the spec's numbers: serves 4, base cost 20, requested
at 8 servings: total 40, cost per serving 5 both before and after. -/
theorem recipe_cost_scaling_witness :
    (0 < exRecipe.serves ∧ (0 : ℚ) < 8 ∧
      (calculateRecipeCost exLedgerPos exRecipe 1 none).totalCost = 20 ∧
      (calculateRecipeCost exLedgerPos exRecipe 1 (some 8)).totalCost = 40 ∧
      (calculateRecipeCost exLedgerPos exRecipe 1 (some 8)).costPerServing = 5 ∧
      (calculateRecipeCost exLedgerPos exRecipe 1 none).costPerServing = 5) ∧
    ((calculateRecipeCost exLedgerPos exRecipe 1 (some 8)).totalCost =
      ((8 : ℚ) / exRecipe.serves) *
        (calculateRecipeCost exLedgerPos exRecipe 1 none).totalCost ∧
    (calculateRecipeCost exLedgerPos exRecipe 1 (some 8)).costPerServing =
      (calculateRecipeCost exLedgerPos exRecipe 1 none).costPerServing) := by
  constructor
  · refine ⟨by norm_num [exRecipe], by norm_num, ?_, ?_, ?_, ?_⟩ <;>
      norm_num [calculateRecipeCost, exLedgerPos, exRecipe, unitPriceOf,
        latestLotFor, lotsOfIngredient]
  · exact recipe_cost_scaling exLedgerPos exRecipe 1 8
      (by norm_num [exRecipe]) (by norm_num)

theorem upsert_filter_map (rows : List SnapshotRow) (uid date : Nat)
    (s : OverallStats) :
    ((rows.map (fun r =>
      if snapKeyMatches r uid date then { r with stats := s } else r)).filter
      (fun r => snapKeyMatches r uid date)) =
      (rows.filter (fun r => snapKeyMatches r uid date)).map
        (fun r => { r with stats := s }) := by
  induction rows with
  | nil => rfl
  | cons a t ih =>
      rw [List.map_cons, List.filter_cons, List.filter_cons]
      by_cases h : snapKeyMatches a uid date = true
      · rw [if_pos h]
        have hkey : snapKeyMatches { a with stats := s } uid date = true := h
        rw [if_pos hkey, if_pos h, List.map_cons, ih]
      · rw [if_neg h]
        have hkey : ¬snapKeyMatches a uid date = true := h
        rw [if_neg hkey, if_neg h, ih]

theorem map_no_key_update (rows : List SnapshotRow) (uid date : Nat)
    (s : OverallStats)
    (h : ∀ r ∈ rows, snapKeyMatches r uid date = false) :
    rows.map (fun r =>
      if snapKeyMatches r uid date then { r with stats := s } else r) = rows := by
  induction rows with
  | nil => rfl
  | cons a t ih =>
      rw [List.map_cons]
      have ha := h a (List.mem_cons_self a t)
      rw [if_neg (by rw [ha]; exact Bool.false_ne_true)]
      rw [ih (fun r hr => h r (List.mem_cons_of_mem a hr))]

theorem upsert_twice (rows : List SnapshotRow) (uid date : Nat)
    (s1 s2 : OverallStats) :
    upsertSnapshot (upsertSnapshot rows uid date s1) uid date s2 =
      upsertSnapshot rows uid date s2 := by
  unfold upsertSnapshot
  by_cases hany : rows.any (fun r => snapKeyMatches r uid date) = true
  · rw [if_pos hany]
    have hany2 : (rows.map (fun r =>
        if snapKeyMatches r uid date then { r with stats := s1 } else r)).any
        (fun r => snapKeyMatches r uid date) = true := by
      obtain ⟨r, hr, hkey⟩ := List.any_eq_true.mp hany
      apply List.any_eq_true.mpr
      refine ⟨if snapKeyMatches r uid date then { r with stats := s1 } else r,
        List.mem_map_of_mem _ hr, ?_⟩
      rw [if_pos hkey]
      exact hkey
    rw [if_pos hany2, if_pos hany, List.map_map]
    apply List.map_congr_left
    intro r _
    show (if snapKeyMatches (if snapKeyMatches r uid date then
        { r with stats := s1 } else r) uid date then
      { (if snapKeyMatches r uid date then { r with stats := s1 } else r)
        with stats := s2 }
      else (if snapKeyMatches r uid date then { r with stats := s1 } else r)) =
      (if snapKeyMatches r uid date then { r with stats := s2 } else r)
    by_cases hkey : snapKeyMatches r uid date = true
    · rw [if_pos hkey, if_pos hkey]
      have : snapKeyMatches { r with stats := s1 } uid date = true := hkey
      rw [if_pos this]
    · simp only [if_neg hkey]
  · rw [if_neg hany]
    have hnone : ∀ r ∈ rows, snapKeyMatches r uid date = false := by
      intro r hr
      rcases Bool.eq_false_or_eq_true (snapKeyMatches r uid date) with h | h
      · exact absurd (List.any_eq_true.mpr ⟨r, hr, h⟩) hany
      · exact h
    have hnewkey : snapKeyMatches (⟨uid, date, s1⟩ : SnapshotRow) uid date =
        true := by
      unfold snapKeyMatches
      simp
    have hany2 : (rows ++ [(⟨uid, date, s1⟩ : SnapshotRow)]).any
        (fun r => snapKeyMatches r uid date) = true :=
      List.any_eq_true.mpr ⟨⟨uid, date, s1⟩,
        List.mem_append_right rows (List.mem_singleton.mpr rfl), hnewkey⟩
    rw [if_pos hany2, if_neg hany, List.map_append,
      map_no_key_update rows uid date s2 hnone]
    rw [List.map_singleton, if_pos hnewkey]

theorem upsert_count_one (rows : List SnapshotRow) (uid date : Nat)
    (s : OverallStats)
    (h : (rows.filter (fun r => snapKeyMatches r uid date)).length ≤ 1) :
    ((upsertSnapshot rows uid date s).filter
      (fun r => snapKeyMatches r uid date)).length = 1 := by
  unfold upsertSnapshot
  by_cases hany : rows.any (fun r => snapKeyMatches r uid date) = true
  · rw [if_pos hany, upsert_filter_map, List.length_map]
    obtain ⟨r, hr, hkey⟩ := List.any_eq_true.mp hany
    have hmem : r ∈ rows.filter (fun r => snapKeyMatches r uid date) :=
      List.mem_filter.mpr ⟨hr, hkey⟩
    have hpos : 0 < (rows.filter (fun r => snapKeyMatches r uid date)).length :=
      List.length_pos.mpr (fun hnil => by
        rw [hnil] at hmem
        exact absurd hmem (List.not_mem_nil r))
    omega
  · rw [if_neg hany, List.filter_append]
    have hnone : ∀ r ∈ rows, snapKeyMatches r uid date = false := by
      intro r hr
      rcases Bool.eq_false_or_eq_true (snapKeyMatches r uid date) with h2 | h2
      · exact absurd (List.any_eq_true.mpr ⟨r, hr, h2⟩) hany
      · exact h2
    have hfilnil : rows.filter (fun r => snapKeyMatches r uid date) = [] := by
      rw [List.filter_eq_nil_iff]
      intro r hr hkey
      rw [hnone r hr] at hkey
      exact Bool.false_ne_true hkey
    have hnewkey : snapKeyMatches (⟨uid, date, s⟩ : SnapshotRow) uid date =
        true := by
      unfold snapKeyMatches
      simp
    rw [hfilnil, List.nil_append]
    simp [hnewkey]

theorem upsert_stats_value (rows : List SnapshotRow) (uid date : Nat)
    (s : OverallStats) :
    ∀ r ∈ (upsertSnapshot rows uid date s).filter
      (fun r => snapKeyMatches r uid date), r.stats = s := by
  intro r hr
  unfold upsertSnapshot at hr
  by_cases hany : rows.any (fun r => snapKeyMatches r uid date) = true
  · rw [if_pos hany, upsert_filter_map] at hr
    obtain ⟨x, _, rfl⟩ := List.mem_map.mp hr
    rfl
  · rw [if_neg hany, List.filter_append] at hr
    have hnone : ∀ x ∈ rows, snapKeyMatches x uid date = false := by
      intro x hx
      rcases Bool.eq_false_or_eq_true (snapKeyMatches x uid date) with h2 | h2
      · exact absurd (List.any_eq_true.mpr ⟨x, hx, h2⟩) hany
      · exact h2
    have hfilnil : rows.filter (fun x => snapKeyMatches x uid date) = [] := by
      rw [List.filter_eq_nil_iff]
      intro x hx hkey
      rw [hnone x hx] at hkey
      exact Bool.false_ne_true hkey
    rw [hfilnil, List.nil_append] at hr
    have hnewkey : snapKeyMatches (⟨uid, date, s⟩ : SnapshotRow) uid date =
        true := by
      unfold snapKeyMatches
      simp
    simp only [List.filter_singleton, hnewkey, cond_true] at hr
    rcases List.mem_singleton.mp hr with rfl
    rfl

/-- C9: `saveDailySnapshot` is an idempotent upsert on the
(tenant, snapshotDate) key: a repeated call for the same tenant and date
leaves exactly one snapshot row for that key, carrying the recomputed
statistics, and re-upserting always overwrites instead of duplicating. -/
theorem snapshot_upsert_idempotent (db : Ledger) (uid today : Nat)
    (h : snapshotCount db uid today ≤ 1) :
    saveDailySnapshot (saveDailySnapshot db uid today) uid today =
      saveDailySnapshot db uid today ∧
    snapshotCount (saveDailySnapshot db uid today) uid today = 1 ∧
    (∀ r ∈ (saveDailySnapshot db uid today).snapshots.filter
        (fun r => snapKeyMatches r uid today),
      r.stats = calculateOverallStatistics db uid) ∧
    (∀ (rows : List SnapshotRow) (s1 s2 : OverallStats),
      upsertSnapshot (upsertSnapshot rows uid today s1) uid today s2 =
        upsertSnapshot rows uid today s2) := by
  refine ⟨?_, ?_, ?_, fun rows s1 s2 => upsert_twice rows uid today s1 s2⟩
  · have h1 : saveDailySnapshot (saveDailySnapshot db uid today) uid today = { db with snapshots := upsertSnapshot (upsertSnapshot db.snapshots uid today (calculateOverallStatistics db uid)) uid today (calculateOverallStatistics db uid) } := rfl
    have h2 : saveDailySnapshot db uid today = { db with snapshots := upsertSnapshot db.snapshots uid today (calculateOverallStatistics db uid) } := rfl
    rw [h1, h2, upsert_twice]
  · exact upsert_count_one db.snapshots uid today
      (calculateOverallStatistics db uid) h
  · exact upsert_stats_value db.snapshots uid today
      (calculateOverallStatistics db uid)

/-- Witness for C9: two snapshot saves on the example ledger coincide with
one, and exactly one row exists for the key afterwards. -/
theorem snapshot_upsert_idempotent_witness :
    (snapshotCount exLedgerC1 1 5 ≤ 1) ∧
    (saveDailySnapshot (saveDailySnapshot exLedgerC1 1 5) 1 5 =
      saveDailySnapshot exLedgerC1 1 5 ∧
    snapshotCount (saveDailySnapshot exLedgerC1 1 5) 1 5 = 1 ∧
    (∀ r ∈ (saveDailySnapshot exLedgerC1 1 5).snapshots.filter
        (fun r => snapKeyMatches r 1 5),
      r.stats = calculateOverallStatistics exLedgerC1 1) ∧
    (∀ (rows : List SnapshotRow) (s1 s2 : OverallStats),
      upsertSnapshot (upsertSnapshot rows 1 5 s1) 1 5 s2 =
        upsertSnapshot rows 1 5 s2)) :=
  ⟨by norm_num [snapshotCount, exLedgerC1],
    snapshot_upsert_idempotent exLedgerC1 1 5
      (by norm_num [snapshotCount, exLedgerC1])⟩

/-- Witness for C10: a lot owned by tenant 2 is invisible to tenant 1 and
reports remaining 0, exactly like a wholly absent stock id. -/
theorem remaining_quantity_foreign_is_zero_witness :
    (∀ l ∈ exLedgerForeign.lots, ¬(l.id = 1 ∧ l.userId = 1)) ∧
    calculateRemainingQuantity exLedgerForeign 1 1 = 0 ∧
    calculateRemainingQuantity exLedgerForeign 99 1 = 0 := by
  refine ⟨?_, ?_, ?_⟩
  · decide
  · exact remaining_quantity_foreign_is_zero exLedgerForeign 1 1 (by decide)
  · norm_num [calculateRemainingQuantity, findLot, matchingLots,
      exLedgerForeign]

end Tasto
